import Mathlib

/-!
Verification of the pypureomapi OMAPI client library.

Python 2 byte strings are modelled as `List Nat` (each element one byte).
Python exceptions are modelled with `Except`; since Python exceptions leave
already-performed mutations in place, the error value carries the state of
the mutated object at the moment the exception was raised.
-/

/-- The exceptions raised by the library.  `OmapiError` instances are
distinguished by their message text. -/
inductive OmapiErr where
  | valueError
  | sizeLimit
  | assertionError
  | keyError
  | notConnected
  | connectionClosed
  | badSignature
  | notDesiredResponse
  | wrongAuthenticator
  | blocked
deriving DecidableEq, Repr

/-- `OutBuffer.sizelimit` and `InBuffer.sizelimit` (65536). -/
def sizelimit : Nat := 65536

/-- `struct.pack("!H", n)`: two bytes, big endian. -/
def net16enc (n : Nat) : List Nat := [n / 256 % 256, n % 256]

/-- `struct.pack("!L", n)`: four bytes, big endian. -/
def net32enc (n : Nat) : List Nat :=
  [n / 16777216 % 256, n / 65536 % 256, n / 256 % 256, n % 256]

/-- `struct.unpack("!H", data)[0]` on a two byte buffer. -/
def net16dec (l : List Nat) : Nat :=
  match l with
  | [a, b] => a * 256 + b
  | _ => 0

/-- `struct.unpack("!L", data)[0]` on a four byte buffer. -/
def net32dec (l : List Nat) : Nat :=
  match l with
  | [a, b, c, d] => ((a * 256 + b) * 256 + c) * 256 + d
  | _ => 0

/-- `OutBuffer`: the contents of the underlying `StringIO`. -/
structure OutBuffer where
  buff : List Nat
deriving DecidableEq, Repr

/-- `OutBuffer.add`: write the data, then raise `OmapiSizeLimitError` if the
accumulated bytes exceed the limit.  The write happens before the check, so
the error state contains the appended data. -/
def OutBuffer.add (b : OutBuffer) (data : List Nat) :
    Except (OmapiErr × OutBuffer) OutBuffer :=
  let b' : OutBuffer := ⟨b.buff ++ data⟩
  if sizelimit < b'.buff.length then .error (.sizeLimit, b') else .ok b'

/-- `OutBuffer.add_net32int`: range-check, then `add` the packed bytes. -/
def OutBuffer.add_net32int (b : OutBuffer) (u : Int) :
    Except (OmapiErr × OutBuffer) OutBuffer :=
  if u < 0 ∨ (4294967296 : Int) ≤ u then .error (.valueError, b)
  else b.add (net32enc u.toNat)

/-- `OutBuffer.add_net16int`: range-check, then `add` the packed bytes. -/
def OutBuffer.add_net16int (b : OutBuffer) (u : Int) :
    Except (OmapiErr × OutBuffer) OutBuffer :=
  if u < 0 ∨ (65536 : Int) ≤ u then .error (.valueError, b)
  else b.add (net16enc u.toNat)

/-- `OutBuffer.add_net32string`: length-check, length word, then the bytes. -/
def OutBuffer.add_net32string (b : OutBuffer) (s : List Nat) :
    Except (OmapiErr × OutBuffer) OutBuffer :=
  if (4294967296 : Nat) ≤ s.length then .error (.valueError, b)
  else (b.add_net32int s.length) >>= fun b1 => b1.add s

/-- `OutBuffer.add_net16string`: length-check, length word, then the bytes. -/
def OutBuffer.add_net16string (b : OutBuffer) (s : List Nat) :
    Except (OmapiErr × OutBuffer) OutBuffer :=
  if (65536 : Nat) ≤ s.length then .error (.valueError, b)
  else (b.add_net16int s.length) >>= fun b1 => b1.add s

/-- `OutBuffer.add_bindict` on an item list: each key as a net16string and
each value as a net32string, then the `[0, 0]` end marker. -/
def OutBuffer.add_bindict (b : OutBuffer) (items : List (List Nat × List Nat)) :
    Except (OmapiErr × OutBuffer) OutBuffer :=
  match items with
  | [] => b.add [0, 0]
  | (k, v) :: rest =>
      (b.add_net16string k) >>= fun b1 =>
      (b1.add_net32string v) >>= fun b2 =>
      b2.add_bindict rest

/-- `OutBuffer.getvalue`. -/
def OutBuffer.getvalue (b : OutBuffer) : List Nat := b.buff

/-- An OMAPI authenticator: `authid`, `authlen` and the `sign` operation.
The null and HMAC-MD5 authenticators are instances. -/
structure OmapiAuthenticator where
  authid : Nat
  authlen : Nat
  sign : List Nat → List Nat

/-- `OmapiNullAuthenticator`: id 0, empty signatures. -/
def OmapiNullAuthenticator : OmapiAuthenticator :=
  { authid := 0, authlen := 0, sign := fun _ => [] }

/-- `OmapiMessage`: the eight semantic fields. -/
structure OmapiMessage where
  authid : Nat := 0
  opcode : Nat := 0
  handle : Nat := 0
  tid : Nat := 0
  rid : Nat := 0
  message : List (List Nat × List Nat) := []
  obj : List (List Nat × List Nat) := []
  signature : List Nat := []
deriving DecidableEq, Repr

/-- `OmapiMessage.as_string`: serialize; the signing form omits the leading
`authid` and the trailing signature bytes but keeps the signature length. -/
def OmapiMessage.as_string (m : OmapiMessage) (forsigning : Bool := false) :
    Except (OmapiErr × OutBuffer) (List Nat) := do
  let ret : OutBuffer := ⟨[]⟩
  let ret ← if forsigning then pure ret else ret.add_net32int m.authid
  let ret ← ret.add_net32int m.signature.length
  let ret ← ret.add_net32int m.opcode
  let ret ← ret.add_net32int m.handle
  let ret ← ret.add_net32int m.tid
  let ret ← ret.add_net32int m.rid
  let ret ← ret.add_bindict m.message
  let ret ← ret.add_bindict m.obj
  let ret ← if forsigning then pure ret else ret.add m.signature
  return ret.getvalue

/-- `OmapiMessage.sign`: set `authid`, install a zero signature of length
`authlen` so the length word is right, sign the signing form, and assert the
resulting signature length. -/
def OmapiMessage.sign (m : OmapiMessage) (a : OmapiAuthenticator) :
    Except (OmapiErr × OutBuffer) OmapiMessage := do
  let m1 := { m with authid := a.authid, signature := List.replicate a.authlen 0 }
  let s ← m1.as_string true
  let m2 := { m1 with signature := a.sign s }
  if m2.signature.length = a.authlen then pure m2
  else .error (.assertionError, ⟨[]⟩)

/-- `OmapiMessage.verify`: look up the authenticator for `authid` (a missing
key gives `False`), re-sign the signing form and compare. -/
def OmapiMessage.verify (m : OmapiMessage)
    (auths : Nat → Option OmapiAuthenticator) :
    Except (OmapiErr × OutBuffer) Bool :=
  match auths m.authid with
  | none => .ok false
  | some a => (m.as_string true).map fun s => decide (a.sign s = m.signature)

/-- `OmapiMessage.is_response`: `self.rid == other.tid`. -/
def OmapiMessage.is_response (m other : OmapiMessage) : Bool :=
  m.rid == other.tid

/-- `OmapiMessage.update_object`: drop the entries of `obj` whose key occurs
in the update, then append the update items. -/
def OmapiMessage.update_object (m : OmapiMessage)
    (update : List (List Nat × List Nat)) : OmapiMessage :=
  { m with obj := (m.obj.filter fun kv => ! update.any fun uv => uv.1 == kv.1)
      ++ update }

/-- `InBuffer`: unparsed bytes plus the running byte meter. -/
structure InBuffer where
  buff : List Nat
  totalsize : Nat
deriving DecidableEq, Repr

/-- The freshly constructed `InBuffer`. -/
def InBuffer.init : InBuffer := ⟨[], 0⟩

/-- `InBuffer.feed`: append the data and bump the meter, then raise
`OmapiSizeLimitError` if the meter exceeds the limit; the mutation persists
in the error state. -/
def InBuffer.feed (s : InBuffer) (data : List Nat) :
    Except (OmapiErr × InBuffer) InBuffer :=
  let s' : InBuffer := ⟨s.buff ++ data, s.totalsize + data.length⟩
  if sizelimit < s'.totalsize then .error (.sizeLimit, s') else .ok s'

/-- `InBuffer.resetsize`: re-baseline the meter to the unparsed bytes. -/
def InBuffer.resetsize (s : InBuffer) : InBuffer := ⟨s.buff, s.buff.length⟩

/-- `InBuffer.parse_fixedbuffer`: `none` means the generator yielded `None`
(more data needed); otherwise consume exactly `length` bytes. -/
def InBuffer.parse_fixedbuffer (s : InBuffer) (length : Nat) :
    Option (List Nat × InBuffer) :=
  if s.buff.length < length then none
  else some (s.buff.take length, ⟨s.buff.drop length, s.totalsize⟩)

/-- `InBuffer.parse_net16int`. -/
def InBuffer.parse_net16int (s : InBuffer) : Option (Nat × InBuffer) :=
  (s.parse_fixedbuffer 2).map fun r => (net16dec r.1, r.2)

/-- `InBuffer.parse_net32int`. -/
def InBuffer.parse_net32int (s : InBuffer) : Option (Nat × InBuffer) :=
  (s.parse_fixedbuffer 4).map fun r => (net32dec r.1, r.2)

/-- `InBuffer.parse_net16string`: a 16-bit length, then that many bytes. -/
def InBuffer.parse_net16string (s : InBuffer) : Option (List Nat × InBuffer) := do
  let (n, s1) ← s.parse_net16int
  s1.parse_fixedbuffer n

/-- `InBuffer.parse_net32string`: a 32-bit length, then that many bytes. -/
def InBuffer.parse_net32string (s : InBuffer) : Option (List Nat × InBuffer) := do
  let (n, s1) ← s.parse_net32int
  s1.parse_fixedbuffer n

/-- The loop body of `InBuffer.parse_bindict`, with fuel standing in for the
unbounded `while True`; each iteration of the source loop consumes at least
three bytes, so `buff.length + 1` units of fuel are never exhausted. -/
def InBuffer.parse_bindict_go :
    Nat → InBuffer → List (List Nat × List Nat) →
    Option (List (List Nat × List Nat) × InBuffer)
  | 0, _, _ => none
  | fuel + 1, s, entries =>
    match s.parse_net16string with
    | none => none
    | some (key, s1) =>
      if key = [] then some (entries, s1)
      else
        match s1.parse_net32string with
        | none => none
        | some (value, s2) => parse_bindict_go fuel s2 (entries ++ [(key, value)])

/-- `InBuffer.parse_bindict`: entries until an empty key. -/
def InBuffer.parse_bindict (s : InBuffer) :
    Option (List (List Nat × List Nat) × InBuffer) :=
  s.parse_bindict_go (s.buff.length + 1) []

/-- `InBuffer.parse_message`: six header words, two dictionaries, then
exactly `authlen` signature bytes; `authlen` itself is dropped by
`from_fields`. -/
def InBuffer.parse_message (s : InBuffer) : Option (OmapiMessage × InBuffer) := do
  let (authid, s) ← s.parse_net32int
  let (authlen, s) ← s.parse_net32int
  let (opcode, s) ← s.parse_net32int
  let (handle, s) ← s.parse_net32int
  let (tid, s) ← s.parse_net32int
  let (rid, s) ← s.parse_net32int
  let (msg, s) ← s.parse_bindict
  let (obj, s) ← s.parse_bindict
  let (sig, s) ← s.parse_fixedbuffer authlen
  some ({ authid := authid, opcode := opcode, handle := handle, tid := tid,
          rid := rid, message := msg, obj := obj, signature := sig }, s)

/-- `str.split(sep)` on byte strings: every separator occurrence splits,
empty pieces are kept. -/
def pySplit (sep : Nat) : List Nat → List (List Nat)
  | [] => [[]]
  | c :: rest =>
    if c = sep then [] :: pySplit sep rest
    else
      match pySplit sep rest with
      | [] => [[c]]
      | g :: gs => (c :: g) :: gs

/-- `sep.join(groups)` on byte strings. -/
def pyJoin (sep : Nat) : List (List Nat) → List Nat
  | [] => []
  | [g] => g
  | g :: gs => g ++ sep :: pyJoin sep gs

/-- ASCII decimal digit test. -/
def isDigitB (b : Nat) : Bool := 48 ≤ b && b ≤ 57

/-- `int(s)` restricted to plain decimal digit strings, the only shapes these
theorems feed it (full `int()` additionally strips whitespace and signs). -/
def pyIntDec (s : List Nat) : Option Nat :=
  if s = [] ∨ ¬ s.all isDigitB then none
  else some (s.foldl (fun a c => a * 10 + (c - 48)) 0)

/-- ASCII hexadecimal digit test. -/
def isHexDigitB (b : Nat) : Bool :=
  (48 ≤ b && b ≤ 57) || (97 ≤ b && b ≤ 102) || (65 ≤ b && b ≤ 70)

/-- The value of an ASCII hexadecimal digit. -/
def hexVal (b : Nat) : Nat :=
  if b ≤ 57 then b - 48 else if b ≤ 70 then b - 55 else b - 87

/-- `int(s, 16)` restricted to plain hexadecimal digit strings, the only
shapes these theorems feed it. -/
def pyIntHex (s : List Nat) : Option Nat :=
  if s = [] ∨ ¬ s.all isHexDigitB then none
  else some (s.foldl (fun a c => a * 16 + hexVal c) 0)

/-- `str(n)` for a natural number: decimal digits, most significant first. -/
def natToDec (n : Nat) : List Nat :=
  if n < 10 then [48 + n]
  else natToDec (n / 10) ++ [48 + n % 10]
decreasing_by exact Nat.div_lt_self (by omega) (by omega)

/-- The ASCII byte of a hexadecimal digit, lowercase. -/
def hexDigitB (d : Nat) : Nat := if d < 10 then 48 + d else 87 + d

/-- Lowercase hexadecimal rendering, most significant digit first. -/
def natToHex (n : Nat) : List Nat :=
  if n < 16 then [hexDigitB n]
  else natToHex (n / 16) ++ [hexDigitB (n % 16)]
decreasing_by exact Nat.div_lt_self (by omega) (by omega)

/-- `"%2.2x" % n`: lowercase hexadecimal, zero padded to width two. -/
def fmt22x (n : Nat) : List Nat :=
  List.replicate (2 - (natToHex n).length) 48 ++ natToHex n

/-- `str.lower()` on one byte. -/
def pyLowerB (b : Nat) : Nat := if 65 ≤ b ∧ b ≤ 90 then b + 32 else b

/-- `str.lower()` on a byte string. -/
def pyLower (s : List Nat) : List Nat := s.map pyLowerB

/-- `pack_ip`: split on dots, require four parts, convert each with `int`,
then `chr` (which bounds each octet below 256). -/
def pack_ip (ipstr : List Nat) : Except OmapiErr (List Nat) := do
  let parts := pySplit 46 ipstr
  if parts.length ≠ 4 then throw .valueError
  let nums ← parts.mapM fun p =>
    match pyIntDec p with
    | none => throw OmapiErr.valueError
    | some n => pure n
  nums.mapM fun n => if n < 256 then pure n else throw OmapiErr.valueError

/-- `unpack_ip`: require four bytes, render each in decimal, join with dots. -/
def unpack_ip (fourbytes : List Nat) : Except OmapiErr (List Nat) :=
  if fourbytes.length ≠ 4 then throw .valueError
  else return pyJoin 46 (fourbytes.map natToDec)

/-- `pack_mac`: split on colons, require six parts, convert each with
`int(_, 16)`, then `chr`. -/
def pack_mac (macstr : List Nat) : Except OmapiErr (List Nat) := do
  let parts := pySplit 58 macstr
  if parts.length ≠ 6 then throw .valueError
  let nums ← parts.mapM fun p =>
    match pyIntHex p with
    | none => throw OmapiErr.valueError
    | some n => pure n
  nums.mapM fun n => if n < 256 then pure n else throw OmapiErr.valueError

/-- `unpack_mac`: require six bytes, render each with `"%2.2x"`, join with
colons. -/
def unpack_mac (sixbytes : List Nat) : Except OmapiErr (List Nat) :=
  if sixbytes.length ≠ 6 then throw .valueError
  else return pyJoin 58 (sixbytes.map fmt22x)

/-- The observable state of an `Omapi` client: whether the socket is open,
the input buffer, the bytes the peer has queued for us, the bytes we have
written, the authenticator registry and the default authenticator id.  The
transport is modelled as the `incoming` / `sent` byte queues. -/
structure OmapiState where
  connected : Bool
  inbuffer : InBuffer
  incoming : List Nat
  sent : List Nat
  auths : Nat → Option OmapiAuthenticator
  defauth : Nat

/-- `Omapi.check_connected`. -/
def Omapi.check_connected (st : OmapiState) : Except (OmapiErr × OmapiState) Unit :=
  if st.connected then .ok () else .error (.notConnected, st)

/-- `Omapi.close`: idempotent. -/
def Omapi.close (st : OmapiState) : OmapiState := { st with connected := false }

/-- `Omapi.recv_conn`: `socket.recv` returns up to `length` queued bytes and
the empty string at end of stream. -/
def Omapi.recv_conn (st : OmapiState) (length : Nat) :
    Except (OmapiErr × OmapiState) (List Nat × OmapiState) := do
  let _ ← Omapi.check_connected st
  .ok (st.incoming.take length, { st with incoming := st.incoming.drop length })

/-- `Omapi.send_conn`. -/
def Omapi.send_conn (st : OmapiState) (data : List Nat) :
    Except (OmapiErr × OmapiState) OmapiState := do
  let _ ← Omapi.check_connected st
  .ok { st with sent := st.sent ++ data }

/-- `Omapi.fill_inbuffer`: read up to 2048 bytes; an empty read closes the
connection and raises; a size-limit overflow on `feed` closes and re-raises
(the overflowing bytes stay in the buffer, as in the source). -/
def Omapi.fill_inbuffer (st : OmapiState) :
    Except (OmapiErr × OmapiState) OmapiState := do
  let (data, st) ← Omapi.recv_conn st 2048
  if data = [] then .error (.connectionClosed, Omapi.close st)
  else
    match st.inbuffer.feed data with
    | .ok ib => .ok { st with inbuffer := ib }
    | .error (e, ib) => .error (e, Omapi.close { st with inbuffer := ib })

/-- The `receive_message` loop.  The source drives a resumable generator;
here each round re-runs the pure parser on the accumulated buffer, which
yields the same parsed message and the same final buffer contents.  Fuel
replaces the unbounded loop: every round either finishes or consumes
incoming bytes or raises, so `incoming.length + 2` rounds always suffice. -/
def Omapi.receive_message_go :
    Nat → OmapiState → Except (OmapiErr × OmapiState) (OmapiMessage × OmapiState)
  | 0, st => .error (.blocked, st)
  | fuel + 1, st =>
    match st.inbuffer.parse_message with
    | none => (Omapi.fill_inbuffer st) >>= Omapi.receive_message_go fuel
    | some (msg, ib) =>
      let st1 := { st with inbuffer := ib.resetsize }
      match msg.verify st1.auths with
      | .ok true => .ok (msg, st1)
      | .ok false => .error (.badSignature, Omapi.close st1)
      | .error (e, _) => .error (e, st1)

/-- `Omapi.receive_message`: parse, reset the size meter, verify. -/
def Omapi.receive_message (st : OmapiState) :
    Except (OmapiErr × OmapiState) (OmapiMessage × OmapiState) :=
  Omapi.receive_message_go (st.incoming.length + 2) st

/-- `Omapi.receive_response`: receive, then check correlation and the
signing authenticator.  Neither failure closes the connection. -/
def Omapi.receive_response (st : OmapiState) (message : OmapiMessage)
    (insecure : Bool := false) :
    Except (OmapiErr × OmapiState) (OmapiMessage × OmapiState) := do
  let (response, st) ← Omapi.receive_message st
  if ! response.is_response message then .error (.notDesiredResponse, st)
  else if response.authid != st.defauth && ! insecure then
    .error (.wrongAuthenticator, st)
  else .ok (response, st)

/-- `Omapi.send_message`: optionally sign with the default authenticator,
then write the full serialization. -/
def Omapi.send_message (st : OmapiState) (message : OmapiMessage)
    (sign : Bool := true) : Except (OmapiErr × OmapiState) OmapiState := do
  let _ ← Omapi.check_connected st
  let message ←
    if sign then
      match st.auths st.defauth with
      | none => .error ((.keyError, st) : OmapiErr × OmapiState)
      | some a =>
        match message.sign a with
        | .ok m => .ok m
        | .error (e, _) => .error (e, st)
    else .ok message
  match message.as_string false with
  | .ok w => Omapi.send_conn st w
  | .error (e, _) => .error (e, st)

/-- The wire encoding of one dictionary entry. -/
def entryEnc (kv : List Nat × List Nat) : List Nat :=
  net16enc kv.1.length ++ kv.1 ++ (net32enc kv.2.length ++ kv.2)

/-- The wire encoding of a dictionary, entries then the end marker. -/
def bindictEnc : List (List Nat × List Nat) → List Nat
  | [] => [0, 0]
  | kv :: rest => entryEnc kv ++ bindictEnc rest

/-- Wellformedness of an encodable dictionary entry list: each key fits a
16-bit length and each value a 32-bit length. -/
def dictFits (items : List (List Nat × List Nat)) : Prop :=
  ∀ kv ∈ items, kv.1.length < 65536 ∧ kv.2.length < 4294967296

/-- Parse-side wellformedness: every key is non-empty (an empty key would be
read back as the end marker). -/
def dictKeysOk (items : List (List Nat × List Nat)) : Prop :=
  ∀ kv ∈ items, kv.1 ≠ ([] : List Nat)

instance {e a : Type} [DecidableEq e] [DecidableEq a] : DecidableEq (Except e a) :=
  fun x y =>
    match x, y with
    | .ok u, .ok v =>
      if h : u = v then isTrue (by rw [h]) else isFalse (fun hh => h (Except.ok.inj hh))
    | .error u, .error v =>
      if h : u = v then isTrue (by rw [h]) else isFalse (fun hh => h (Except.error.inj hh))
    | .ok _, .error _ => isFalse (fun hh => Except.noConfusion hh)
    | .error _, .ok _ => isFalse (fun hh => Except.noConfusion hh)

instance (items : List (List Nat × List Nat)) : Decidable (dictKeysOk items) :=
  decidable_of_iff (∀ kv ∈ items, kv.1 ≠ ([] : List Nat)) Iff.rfl

instance (items : List (List Nat × List Nat)) : Decidable (dictFits items) :=
  decidable_of_iff (∀ kv ∈ items, kv.1.length < 65536 ∧ kv.2.length < 4294967296) Iff.rfl

/-- The dictionary of end-to-end scenario 1 from the specification. -/
def c3D : List (List Nat × List Nat) := [([102, 111, 111], [98, 97, 114])]

/-- A concrete message for the claim C7 witness. -/
def c7msg : OmapiMessage :=
  { authid := 1, opcode := 3, handle := 2, tid := 5, rid := 6,
    message := [([116, 121, 112, 101], [104, 111, 115, 116])],
    obj := [], signature := List.replicate 4 0 }

/-- The full serialization of `c7msg`. -/
def c7w : List Nat :=
  [0, 0, 0, 1, 0, 0, 0, 4, 0, 0, 0, 3, 0, 0, 0, 2, 0, 0, 0, 5, 0, 0, 0, 6,
   0, 4, 116, 121, 112, 101, 0, 0, 0, 4, 104, 111, 115, 116, 0, 0,
   0, 0, 0, 0, 0, 0]

def parseSigningForm (s : InBuffer) :
    Option ((Nat × Nat × Nat × Nat × Nat ×
      List (List Nat × List Nat) × List (List Nat × List Nat)) × InBuffer) := do
  let (al, s) ← s.parse_net32int
  let (oc, s) ← s.parse_net32int
  let (hd, s) ← s.parse_net32int
  let (ti, s) ← s.parse_net32int
  let (ri, s) ← s.parse_net32int
  let (mg, s) ← s.parse_bindict
  let (ob, s) ← s.parse_bindict
  some ((al, oc, hd, ti, ri, mg, ob), s)

/-- The authenticator registry holding only the null authenticator. -/
def c2auths : Nat → Option OmapiAuthenticator :=
  fun i => if i = 0 then some OmapiNullAuthenticator else none

/-- A buffer already filled to exactly the size limit. -/
def zeros65536 : List Nat := List.replicate 65536 0

/-- A buffer one byte short of the size limit. -/
def zeros65535 : List Nat := List.replicate 65535 0

/-- A buffer three bytes short of the size limit. -/
def zeros65533 : List Nat := List.replicate 65533 0

/-- The numeric value of a decimal digit string, as `int()` computes it. -/
def decVal (s : List Nat) : Nat := s.foldl (fun a c => a * 10 + (c - 48)) 0

/-- A dotted-quad byte string: four non-empty decimal digit groups joined
with dots, each of value at most 255 (the claim's hypothesis, which says
nothing about leading zeros). -/
def ipQuad (s : List Nat) : Prop :=
  ∃ g1 g2 g3 g4 : List Nat,
    s = g1 ++ 46 :: (g2 ++ 46 :: (g3 ++ 46 :: g4)) ∧
    ∀ g ∈ [g1, g2, g3, g4],
      g ≠ [] ∧ (∀ c ∈ g, isDigitB c = true) ∧ decVal g ≤ 255

/-- A canonical dotted quad: as `ipQuad`, with each octet written without
leading zeros (a group starting with the digit 0 is exactly "0"). -/
def ipQuadCanon (s : List Nat) : Prop :=
  ∃ g1 g2 g3 g4 : List Nat,
    s = g1 ++ 46 :: (g2 ++ 46 :: (g3 ++ 46 :: g4)) ∧
    ∀ g ∈ [g1, g2, g3, g4],
      g ≠ [] ∧ (∀ c ∈ g, isDigitB c = true) ∧ decVal g ≤ 255 ∧
        (g.head? = some 48 → g = [48])

/-- A well-formed colon-hex MAC string: six pairs of hexadecimal digits
joined with colons. -/
def macPairs (s : List Nat) : Prop :=
  ∃ x1 y1 x2 y2 x3 y3 x4 y4 x5 y5 x6 y6 : Nat,
    s = [x1, y1] ++ 58 :: ([x2, y2] ++ 58 :: ([x3, y3] ++ 58 ::
      ([x4, y4] ++ 58 :: ([x5, y5] ++ 58 :: [x6, y6])))) ∧
    (isHexDigitB x1 && isHexDigitB y1 && isHexDigitB x2 && isHexDigitB y2 &&
     isHexDigitB x3 && isHexDigitB y3 && isHexDigitB x4 && isHexDigitB y4 &&
     isHexDigitB x5 && isHexDigitB y5 && isHexDigitB x6 && isHexDigitB y6) = true

/-- The registry of a freshly constructed client: only the null
authenticator, at id 0. -/
def c4auths : Nat → Option OmapiAuthenticator :=
  fun i => if i = 0 then some OmapiNullAuthenticator else none

/-- The wire bytes of a null-signed message with opcode 3 and rid 5. -/
def c4wire : List Nat :=
  [0, 0, 0, 0, 0, 0, 0, 0, 0, 0, 0, 3, 0, 0, 0, 0, 0, 0, 0, 0, 0, 0, 0, 5,
   0, 0, 0, 0]

/-- A connected client state about to read `c4wire`. -/
def c4state : OmapiState :=
  { connected := true, inbuffer := InBuffer.init, incoming := c4wire,
    sent := [], auths := c4auths, defauth := 0 }

/-- The pending request, with tid 7 (so the incoming rid 5 mismatches). -/
def c4req : OmapiMessage := { tid := 7 }

/-- The client state after the mismatching message has been received. -/
def c4state1 : OmapiState :=
  { connected := true, inbuffer := ⟨[], 0⟩, incoming := [],
    sent := [], auths := c4auths, defauth := 0 }

/-- The verified incoming message carried by `c4wire`. -/
def c4resp : OmapiMessage := { opcode := 3, rid := 5 }

/-- The error kind of a failed client operation. -/
def errPayload {α : Type} : Except (OmapiErr × OmapiState) α → Option OmapiErr
  | .error (e, _) => some e
  | .ok _ => none

/-- Whether the client is still connected after a failed operation. -/
def errStillConnected {α : Type} :
    Except (OmapiErr × OmapiState) α → Option Bool
  | .error (_, st) => some st.connected
  | .ok _ => none

/-- One completed `InBuffer` operation: a successful `feed`, a `resetsize`,
or any successful parse. -/
inductive InBuffer.Step : InBuffer → InBuffer → Prop where
  | feed {s s' : InBuffer} (data : List Nat) :
      s.feed data = .ok s' → InBuffer.Step s s'
  | reset (s : InBuffer) : InBuffer.Step s s.resetsize
  | fixed {s s' : InBuffer} (n : Nat) (r : List Nat) :
      s.parse_fixedbuffer n = some (r, s') → InBuffer.Step s s'
  | p16i {s s' : InBuffer} (r : Nat) :
      s.parse_net16int = some (r, s') → InBuffer.Step s s'
  | p32i {s s' : InBuffer} (r : Nat) :
      s.parse_net32int = some (r, s') → InBuffer.Step s s'
  | p16s {s s' : InBuffer} (r : List Nat) :
      s.parse_net16string = some (r, s') → InBuffer.Step s s'
  | p32s {s s' : InBuffer} (r : List Nat) :
      s.parse_net32string = some (r, s') → InBuffer.Step s s'
  | bdict {s s' : InBuffer} (r : List (List Nat × List Nat)) :
      s.parse_bindict = some (r, s') → InBuffer.Step s s'
  | pmsg {s s' : InBuffer} (r : OmapiMessage) :
      s.parse_message = some (r, s') → InBuffer.Step s s'

/-- The states an `InBuffer` can reach from construction by completed
operations. -/
def InBuffer.ReachOk (s : InBuffer) : Prop :=
  Relation.ReflTransGen InBuffer.Step InBuffer.init s

theorem net16dec_enc (n : Nat) (h : n < 65536) : net16dec (net16enc n) = n := by
  simp only [net16enc, net16dec]
  omega

theorem net32dec_enc (n : Nat) (h : n < 4294967296) : net32dec (net32enc n) = n := by
  simp only [net32enc, net32dec]
  omega

theorem net16enc_length (n : Nat) : (net16enc n).length = 2 := rfl

theorem net32enc_length (n : Nat) : (net32enc n).length = 4 := rfl

theorem OutBuffer.add_eq (b : OutBuffer) (data : List Nat) :
    b.add data =
      if sizelimit < b.buff.length + data.length
      then .error (.sizeLimit, ⟨b.buff ++ data⟩)
      else .ok ⟨b.buff ++ data⟩ := by
  simp [OutBuffer.add]

theorem OutBuffer.add_ok_iff (b b' : OutBuffer) (data : List Nat) :
    b.add data = .ok b' ↔
      b.buff.length + data.length ≤ sizelimit ∧ b' = ⟨b.buff ++ data⟩ := by
  rw [OutBuffer.add_eq]
  split <;> constructor <;> intro h
  · cases h
  · omega
  · exact ⟨by omega, by injection h; simp_all⟩
  · rw [h.2]

theorem OutBuffer.add_net16int_eq_of_range (b : OutBuffer) (u : Int)
    (h0 : 0 ≤ u) (h1 : u < 65536) :
    b.add_net16int u = b.add (net16enc u.toNat) := by
  rw [OutBuffer.add_net16int, if_neg]
  omega

theorem OutBuffer.add_net32int_eq_of_range (b : OutBuffer) (u : Int)
    (h0 : 0 ≤ u) (h1 : u < 4294967296) :
    b.add_net32int u = b.add (net32enc u.toNat) := by
  rw [OutBuffer.add_net32int, if_neg]
  omega

theorem OutBuffer.add_net16int_err_of_out (b : OutBuffer) (u : Int)
    (h : u < 0 ∨ 65536 ≤ u) :
    b.add_net16int u = .error (.valueError, b) := by
  rw [OutBuffer.add_net16int, if_pos]
  exact h

theorem OutBuffer.add_net32int_err_of_out (b : OutBuffer) (u : Int)
    (h : u < 0 ∨ 4294967296 ≤ u) :
    b.add_net32int u = .error (.valueError, b) := by
  rw [OutBuffer.add_net32int, if_pos]
  exact h

theorem OutBuffer.add_net16int_ok_iff (b b' : OutBuffer) (u : Int) :
    b.add_net16int u = .ok b' ↔
      0 ≤ u ∧ u < 65536 ∧ b.buff.length + 2 ≤ sizelimit ∧
        b' = ⟨b.buff ++ net16enc u.toNat⟩ := by
  constructor
  · intro h
    by_cases hr : u < 0 ∨ (65536 : Int) ≤ u
    · rw [OutBuffer.add_net16int_err_of_out b u hr] at h
      cases h
    · push_neg at hr
      rw [OutBuffer.add_net16int_eq_of_range b u hr.1 hr.2] at h
      have := (OutBuffer.add_ok_iff b b' (net16enc u.toNat)).1 h
      refine ⟨hr.1, hr.2, ?_, this.2⟩
      simpa [net16enc_length] using this.1
  · rintro ⟨h0, h1, h2, rfl⟩
    rw [OutBuffer.add_net16int_eq_of_range b u h0 h1,
        (OutBuffer.add_ok_iff _ _ _).2 ⟨by simpa [net16enc_length], rfl⟩]

theorem OutBuffer.add_net32int_ok_iff (b b' : OutBuffer) (u : Int) :
    b.add_net32int u = .ok b' ↔
      0 ≤ u ∧ u < 4294967296 ∧ b.buff.length + 4 ≤ sizelimit ∧
        b' = ⟨b.buff ++ net32enc u.toNat⟩ := by
  constructor
  · intro h
    by_cases hr : u < 0 ∨ (4294967296 : Int) ≤ u
    · rw [OutBuffer.add_net32int_err_of_out b u hr] at h
      cases h
    · push_neg at hr
      rw [OutBuffer.add_net32int_eq_of_range b u hr.1 hr.2] at h
      have := (OutBuffer.add_ok_iff b b' (net32enc u.toNat)).1 h
      refine ⟨hr.1, hr.2, ?_, this.2⟩
      simpa [net32enc_length] using this.1
  · rintro ⟨h0, h1, h2, rfl⟩
    rw [OutBuffer.add_net32int_eq_of_range b u h0 h1,
        (OutBuffer.add_ok_iff _ _ _).2 ⟨by simpa [net32enc_length], rfl⟩]

theorem bind_ok_left {ε α β : Type} (a : α) (f : α → Except ε β) :
    (Except.ok a : Except ε α) >>= f = f a := rfl

theorem bind_error_left {ε α β : Type} (e : ε) (f : α → Except ε β) :
    (Except.error e : Except ε α) >>= f = .error e := rfl

theorem bind_eq_ok {ε α β : Type} (x : Except ε α) (f : α → Except ε β) (r : β) :
    x >>= f = .ok r ↔ ∃ a, x = .ok a ∧ f a = .ok r := by
  cases x <;> simp [bind_ok_left, bind_error_left]

theorem OutBuffer.add_net16string_eq (b : OutBuffer) (s : List Nat)
    (h : s.length < 65536) :
    b.add_net16string s =
      if sizelimit < b.buff.length + 2 then
        .error (.sizeLimit, ⟨b.buff ++ net16enc s.length⟩)
      else if sizelimit < b.buff.length + 2 + s.length then
        .error (.sizeLimit, ⟨b.buff ++ net16enc s.length ++ s⟩)
      else .ok ⟨b.buff ++ net16enc s.length ++ s⟩ := by
  rw [OutBuffer.add_net16string, if_neg (by omega),
      OutBuffer.add_net16int_eq_of_range _ _ (by omega) (by omega),
      OutBuffer.add_eq]
  simp only [Int.toNat_natCast, List.length_append, net16enc_length]
  by_cases h1 : sizelimit < b.buff.length + 2
  · rw [if_pos h1, if_pos h1, bind_error_left]
  · rw [if_neg h1, if_neg h1, bind_ok_left, OutBuffer.add_eq]
    simp only [List.length_append, net16enc_length, List.append_assoc]

theorem OutBuffer.add_net32string_eq (b : OutBuffer) (s : List Nat)
    (h : s.length < 4294967296) :
    b.add_net32string s =
      if sizelimit < b.buff.length + 4 then
        .error (.sizeLimit, ⟨b.buff ++ net32enc s.length⟩)
      else if sizelimit < b.buff.length + 4 + s.length then
        .error (.sizeLimit, ⟨b.buff ++ net32enc s.length ++ s⟩)
      else .ok ⟨b.buff ++ net32enc s.length ++ s⟩ := by
  rw [OutBuffer.add_net32string, if_neg (by omega),
      OutBuffer.add_net32int_eq_of_range _ _ (by omega) (by omega),
      OutBuffer.add_eq]
  simp only [Int.toNat_natCast, List.length_append, net32enc_length]
  by_cases h1 : sizelimit < b.buff.length + 4
  · rw [if_pos h1, if_pos h1, bind_error_left]
  · rw [if_neg h1, if_neg h1, bind_ok_left, OutBuffer.add_eq]
    simp only [List.length_append, net32enc_length, List.append_assoc]

theorem OutBuffer.add_net16string_ok_iff (b b' : OutBuffer) (s : List Nat) :
    b.add_net16string s = .ok b' ↔
      s.length < 65536 ∧ b.buff.length + 2 + s.length ≤ sizelimit ∧
        b' = ⟨b.buff ++ net16enc s.length ++ s⟩ := by
  constructor
  · intro h
    by_cases hs : s.length < 65536
    · rw [OutBuffer.add_net16string_eq b s hs] at h
      split_ifs at h with h1 h2
      injection h with h
      exact ⟨hs, by omega, h.symm⟩
    · rw [OutBuffer.add_net16string, if_pos (by omega)] at h
      cases h
  · rintro ⟨hs, hfit, rfl⟩
    rw [OutBuffer.add_net16string_eq b s hs, if_neg (by omega), if_neg (by omega)]

theorem OutBuffer.add_net32string_ok_iff (b b' : OutBuffer) (s : List Nat) :
    b.add_net32string s = .ok b' ↔
      s.length < 4294967296 ∧ b.buff.length + 4 + s.length ≤ sizelimit ∧
        b' = ⟨b.buff ++ net32enc s.length ++ s⟩ := by
  constructor
  · intro h
    by_cases hs : s.length < 4294967296
    · rw [OutBuffer.add_net32string_eq b s hs] at h
      split_ifs at h with h1 h2
      injection h with h
      exact ⟨hs, by omega, h.symm⟩
    · rw [OutBuffer.add_net32string, if_pos (by omega)] at h
      cases h
  · rintro ⟨hs, hfit, rfl⟩
    rw [OutBuffer.add_net32string_eq b s hs, if_neg (by omega), if_neg (by omega)]

theorem entryEnc_length (kv : List Nat × List Nat) :
    (entryEnc kv).length = 6 + kv.1.length + kv.2.length := by
  simp [entryEnc, net16enc, net32enc]
  omega

theorem OutBuffer.add_bindict_ok_iff (b b' : OutBuffer)
    (items : List (List Nat × List Nat)) :
    b.add_bindict items = .ok b' ↔
      dictFits items ∧ b.buff.length + (bindictEnc items).length ≤ sizelimit ∧
        b' = ⟨b.buff ++ bindictEnc items⟩ := by
  induction items generalizing b with
  | nil =>
    rw [OutBuffer.add_bindict, OutBuffer.add_ok_iff]
    simp [dictFits, bindictEnc]
  | cons kv rest ih =>
    obtain ⟨k, v⟩ := kv
    rw [OutBuffer.add_bindict]
    constructor
    · intro h
      rw [bind_eq_ok] at h
      obtain ⟨b1, h1, h⟩ := h
      rw [bind_eq_ok] at h
      obtain ⟨b2, h2, h⟩ := h
      obtain ⟨hk, hfit1, rfl⟩ := (OutBuffer.add_net16string_ok_iff _ _ _).1 h1
      obtain ⟨hv, hfit2, rfl⟩ := (OutBuffer.add_net32string_ok_iff _ _ _).1 h2
      obtain ⟨hwf, hfit, rfl⟩ := (ih _).1 h
      refine ⟨?_, ?_, ?_⟩
      · intro kv hm
        rcases List.mem_cons.1 hm with hh | ht
        · cases hh
          exact ⟨hk, hv⟩
        · exact hwf kv ht
      · simp only [List.length_append, net16enc_length, net32enc_length,
          bindictEnc, entryEnc] at hfit ⊢
        omega
      · simp [bindictEnc, entryEnc, List.append_assoc]
    · rintro ⟨hwf, hfit, rfl⟩
      have hk := (hwf (k, v) (List.mem_cons_self _ _)).1
      have hv := (hwf (k, v) (List.mem_cons_self _ _)).2
      have hlen : (bindictEnc ((k, v) :: rest)).length =
          6 + k.length + v.length + (bindictEnc rest).length := by
        simp only [bindictEnc, List.length_append, entryEnc_length]
      rw [bind_eq_ok]
      refine ⟨⟨b.buff ++ net16enc k.length ++ k⟩,
        (OutBuffer.add_net16string_ok_iff _ _ _).2 ⟨hk, by omega, rfl⟩, ?_⟩
      rw [bind_eq_ok]
      refine ⟨⟨(b.buff ++ net16enc k.length ++ k) ++ net32enc v.length ++ v⟩,
        (OutBuffer.add_net32string_ok_iff _ _ _).2
          ⟨hv, by simp only [List.length_append, net16enc_length]; omega, rfl⟩, ?_⟩
      refine (ih _).2 ⟨fun kv hm => hwf kv (List.mem_cons_of_mem _ hm), ?_, ?_⟩
      · simp only [List.length_append, net16enc_length, net32enc_length]
        omega
      · simp [bindictEnc, entryEnc, List.append_assoc]

theorem OutBuffer.add_bindict_sizeLimit (b : OutBuffer)
    (items : List (List Nat × List Nat)) (hwf : dictFits items)
    (hover : sizelimit < b.buff.length + (bindictEnc items).length) :
    ∃ e : OutBuffer, b.add_bindict items = .error (.sizeLimit, e) ∧
      (∃ t, t ≠ [] ∧ e.buff = b.buff ++ t) ∧ sizelimit < e.buff.length := by
  induction items generalizing b with
  | nil =>
    simp only [bindictEnc, List.length_cons, List.length_nil] at hover
    rw [OutBuffer.add_bindict, OutBuffer.add_eq, if_pos (by simp; omega)]
    exact ⟨⟨b.buff ++ [0, 0]⟩, rfl, ⟨[0, 0], by simp, rfl⟩, by simp; omega⟩
  | cons kv rest ih =>
    obtain ⟨k, v⟩ := kv
    have hk := (hwf (k, v) (List.mem_cons_self _ _)).1
    have hv := (hwf (k, v) (List.mem_cons_self _ _)).2
    rw [OutBuffer.add_bindict, OutBuffer.add_net16string_eq b k hk]
    by_cases h1 : sizelimit < b.buff.length + 2
    · rw [if_pos h1, bind_error_left]
      exact ⟨_, rfl, ⟨net16enc k.length, by simp [net16enc], rfl⟩,
        by simp [net16enc_length]; omega⟩
    · rw [if_neg h1]
      by_cases h2 : sizelimit < b.buff.length + 2 + k.length
      · rw [if_pos h2, bind_error_left]
        refine ⟨_, rfl, ⟨net16enc k.length ++ k, by simp [net16enc], by simp⟩, ?_⟩
        simp only [List.length_append, net16enc_length]
        omega
      · rw [if_neg h2, bind_ok_left,
          OutBuffer.add_net32string_eq ⟨b.buff ++ net16enc k.length ++ k⟩ v hv]
        simp only [List.length_append, net16enc_length]
        by_cases h3 : sizelimit < b.buff.length + 2 + k.length + 4
        · rw [if_pos h3, bind_error_left]
          refine ⟨_, rfl, ⟨net16enc k.length ++ k ++ net32enc v.length,
            by simp [net16enc], by simp⟩, ?_⟩
          simp only [List.length_append, net16enc_length, net32enc_length]
          omega
        · rw [if_neg h3]
          by_cases h4 : sizelimit < b.buff.length + 2 + k.length + 4 + v.length
          · rw [if_pos h4, bind_error_left]
            refine ⟨_, rfl, ⟨net16enc k.length ++ k ++ (net32enc v.length ++ v),
              by simp [net16enc], by simp⟩, ?_⟩
            simp only [List.length_append, net16enc_length, net32enc_length]
            omega
          · rw [if_neg h4, bind_ok_left]
            have hover' : sizelimit <
                (b.buff ++ net16enc k.length ++ k ++ net32enc v.length ++ v).length +
                  (bindictEnc rest).length := by
              simp only [List.length_append, net16enc_length, net32enc_length]
              simp only [bindictEnc, List.length_append, entryEnc_length] at hover
              omega
            obtain ⟨e, heq, ⟨t, hne, het⟩, hlen⟩ :=
              ih ⟨b.buff ++ net16enc k.length ++ k ++ net32enc v.length ++ v⟩
                (fun kv hm => hwf kv (List.mem_cons_of_mem _ hm)) hover'
            refine ⟨e, heq, ⟨net16enc k.length ++ k ++ (net32enc v.length ++ v) ++ t,
              by simp [net16enc], ?_⟩, hlen⟩
            simp only at het
            rw [het]
            simp [List.append_assoc]

theorem InBuffer.parse_fixed_exact (a rest : List Nat) (ts : Nat) :
    InBuffer.parse_fixedbuffer ⟨a ++ rest, ts⟩ a.length = some (a, ⟨rest, ts⟩) := by
  rw [InBuffer.parse_fixedbuffer, if_neg (by simp)]
  simp [List.take_left, List.drop_left]

theorem InBuffer.parse_net16int_enc (n : Nat) (h : n < 65536) (rest : List Nat)
    (ts : Nat) :
    InBuffer.parse_net16int ⟨net16enc n ++ rest, ts⟩ = some (n, ⟨rest, ts⟩) := by
  rw [InBuffer.parse_net16int,
    show (2 : Nat) = (net16enc n).length from rfl, InBuffer.parse_fixed_exact]
  simp [net16dec_enc n h]

theorem InBuffer.parse_net32int_enc (n : Nat) (h : n < 4294967296) (rest : List Nat)
    (ts : Nat) :
    InBuffer.parse_net32int ⟨net32enc n ++ rest, ts⟩ = some (n, ⟨rest, ts⟩) := by
  rw [InBuffer.parse_net32int,
    show (4 : Nat) = (net32enc n).length from rfl, InBuffer.parse_fixed_exact]
  simp [net32dec_enc n h]

theorem InBuffer.parse_net16string_enc (s rest : List Nat) (ts : Nat)
    (h : s.length < 65536) :
    InBuffer.parse_net16string ⟨net16enc s.length ++ s ++ rest, ts⟩ =
      some (s, ⟨rest, ts⟩) := by
  rw [InBuffer.parse_net16string]
  rw [show (⟨net16enc s.length ++ s ++ rest, ts⟩ : InBuffer)
      = ⟨net16enc s.length ++ (s ++ rest), ts⟩ by simp]
  rw [InBuffer.parse_net16int_enc s.length h (s ++ rest) ts]
  simpa using InBuffer.parse_fixed_exact s rest ts

theorem InBuffer.parse_net32string_enc (s rest : List Nat) (ts : Nat)
    (h : s.length < 4294967296) :
    InBuffer.parse_net32string ⟨net32enc s.length ++ s ++ rest, ts⟩ =
      some (s, ⟨rest, ts⟩) := by
  rw [InBuffer.parse_net32string]
  rw [show (⟨net32enc s.length ++ s ++ rest, ts⟩ : InBuffer)
      = ⟨net32enc s.length ++ (s ++ rest), ts⟩ by simp]
  rw [InBuffer.parse_net32int_enc s.length h (s ++ rest) ts]
  simpa using InBuffer.parse_fixed_exact s rest ts

theorem bindictEnc_length_ge (items : List (List Nat × List Nat)) :
    items.length ≤ (bindictEnc items).length := by
  induction items with
  | nil => simp [bindictEnc]
  | cons kv rest ih =>
    simp only [bindictEnc, List.length_append, entryEnc_length, List.length_cons]
    omega

theorem InBuffer.parse_bindict_go_enc (items : List (List Nat × List Nat))
    (hfits : dictFits items) (hkeys : dictKeysOk items) :
    ∀ fuel, items.length + 1 ≤ fuel → ∀ acc rest ts,
      InBuffer.parse_bindict_go fuel ⟨bindictEnc items ++ rest, ts⟩ acc =
        some (acc ++ items, ⟨rest, ts⟩) := by
  induction items with
  | nil =>
    intro fuel hfuel acc rest ts
    obtain ⟨f, rfl⟩ : ∃ f, fuel = f + 1 := ⟨fuel - 1, by omega⟩
    rw [InBuffer.parse_bindict_go]
    have h0 : bindictEnc [] ++ rest = net16enc (List.length ([] : List Nat)) ++
        ([] : List Nat) ++ rest := by
      simp [bindictEnc, net16enc]
    rw [h0, InBuffer.parse_net16string_enc [] rest ts (by simp)]
    simp
  | cons kv rest' ih =>
    intro fuel hfuel acc rest ts
    obtain ⟨k, v⟩ := kv
    obtain ⟨f, rfl⟩ : ∃ f, fuel = f + 1 := ⟨fuel - 1, by omega⟩
    have hk := (hfits (k, v) (List.mem_cons_self _ _)).1
    have hv := (hfits (k, v) (List.mem_cons_self _ _)).2
    have hkne := hkeys (k, v) (List.mem_cons_self _ _)
    rw [InBuffer.parse_bindict_go]
    have hshape : bindictEnc ((k, v) :: rest') ++ rest =
        net16enc k.length ++ k ++
          (net32enc v.length ++ v ++ (bindictEnc rest' ++ rest)) := by
      simp [bindictEnc, entryEnc, List.append_assoc]
    simp only at hkne
    rw [hshape, InBuffer.parse_net16string_enc k _ ts hk]
    simp only [hkne, InBuffer.parse_net32string_enc v _ ts hv, if_neg, ite_false]
    have := ih (fun kv hm => hfits kv (List.mem_cons_of_mem _ hm))
      (fun kv hm => hkeys kv (List.mem_cons_of_mem _ hm)) f
      (by simp at hfuel; omega) (acc ++ [(k, v)]) rest ts
    rw [this]
    simp

theorem InBuffer.parse_bindict_enc (items : List (List Nat × List Nat))
    (hfits : dictFits items) (hkeys : dictKeysOk items) (rest : List Nat)
    (ts : Nat) :
    InBuffer.parse_bindict ⟨bindictEnc items ++ rest, ts⟩ =
      some (items, ⟨rest, ts⟩) := by
  rw [InBuffer.parse_bindict]
  have h1 : items.length + 1 ≤ (bindictEnc items ++ rest).length + 1 := by
    have := bindictEnc_length_ge items
    simp only [List.length_append]
    omega
  simpa using InBuffer.parse_bindict_go_enc items hfits hkeys _ h1 [] rest ts

theorem OmapiMessage.as_string_ok_decomp (m : OmapiMessage) (w : List Nat)
    (h : m.as_string false = .ok w) :
    m.authid < 4294967296 ∧ m.signature.length < 4294967296 ∧
    m.opcode < 4294967296 ∧ m.handle < 4294967296 ∧
    m.tid < 4294967296 ∧ m.rid < 4294967296 ∧
    dictFits m.message ∧ dictFits m.obj ∧
    w = net32enc m.authid ++ net32enc m.signature.length ++ net32enc m.opcode ++
        net32enc m.handle ++ net32enc m.tid ++ net32enc m.rid ++
        bindictEnc m.message ++ bindictEnc m.obj ++ m.signature := by
  rw [OmapiMessage.as_string] at h
  simp only [Bool.false_eq_true, if_false] at h
  obtain ⟨b1, h1, h⟩ := (bind_eq_ok _ _ _).1 h
  obtain ⟨b2, h2, h⟩ := (bind_eq_ok _ _ _).1 h
  obtain ⟨b3, h3, h⟩ := (bind_eq_ok _ _ _).1 h
  obtain ⟨b4, h4, h⟩ := (bind_eq_ok _ _ _).1 h
  obtain ⟨b5, h5, h⟩ := (bind_eq_ok _ _ _).1 h
  obtain ⟨b6, h6, h⟩ := (bind_eq_ok _ _ _).1 h
  obtain ⟨b7, h7, h⟩ := (bind_eq_ok _ _ _).1 h
  obtain ⟨b8, h8, h⟩ := (bind_eq_ok _ _ _).1 h
  obtain ⟨b9, h9, h⟩ := (bind_eq_ok _ _ _).1 h
  obtain ⟨ha0, ha1, _, rfl⟩ := (OutBuffer.add_net32int_ok_iff _ _ _).1 h1
  obtain ⟨hb0, hb1, _, rfl⟩ := (OutBuffer.add_net32int_ok_iff _ _ _).1 h2
  obtain ⟨hc0, hc1, _, rfl⟩ := (OutBuffer.add_net32int_ok_iff _ _ _).1 h3
  obtain ⟨hd0, hd1, _, rfl⟩ := (OutBuffer.add_net32int_ok_iff _ _ _).1 h4
  obtain ⟨he0, he1, _, rfl⟩ := (OutBuffer.add_net32int_ok_iff _ _ _).1 h5
  obtain ⟨hf0, hf1, _, rfl⟩ := (OutBuffer.add_net32int_ok_iff _ _ _).1 h6
  obtain ⟨hg, _, rfl⟩ := (OutBuffer.add_bindict_ok_iff _ _ _).1 h7
  obtain ⟨hh, _, rfl⟩ := (OutBuffer.add_bindict_ok_iff _ _ _).1 h8
  obtain ⟨_, rfl⟩ := (OutBuffer.add_ok_iff _ _ _).1 h9
  refine ⟨by omega, by omega, by omega, by omega, by omega, by omega, hg, hh, ?_⟩
  injection h with h
  rw [← h]
  simp [OutBuffer.getvalue, Int.toNat_natCast, List.append_assoc]

theorem OmapiMessage.as_string_forsigning_decomp (m : OmapiMessage) (w : List Nat)
    (h : m.as_string true = .ok w) :
    m.signature.length < 4294967296 ∧
    m.opcode < 4294967296 ∧ m.handle < 4294967296 ∧
    m.tid < 4294967296 ∧ m.rid < 4294967296 ∧
    dictFits m.message ∧ dictFits m.obj ∧
    w = net32enc m.signature.length ++ net32enc m.opcode ++
        net32enc m.handle ++ net32enc m.tid ++ net32enc m.rid ++
        bindictEnc m.message ++ bindictEnc m.obj := by
  rw [OmapiMessage.as_string] at h
  simp only [if_pos] at h
  obtain ⟨b1, h1, h⟩ := (bind_eq_ok _ _ _).1 h
  injection h1 with h1
  subst h1
  obtain ⟨b2, h2, h⟩ := (bind_eq_ok _ _ _).1 h
  obtain ⟨b3, h3, h⟩ := (bind_eq_ok _ _ _).1 h
  obtain ⟨b4, h4, h⟩ := (bind_eq_ok _ _ _).1 h
  obtain ⟨b5, h5, h⟩ := (bind_eq_ok _ _ _).1 h
  obtain ⟨b6, h6, h⟩ := (bind_eq_ok _ _ _).1 h
  obtain ⟨b7, h7, h⟩ := (bind_eq_ok _ _ _).1 h
  obtain ⟨b8, h8, h⟩ := (bind_eq_ok _ _ _).1 h
  obtain ⟨b9, h9, h⟩ := (bind_eq_ok _ _ _).1 h
  injection h9 with h9
  subst h9
  obtain ⟨hb0, hb1, _, rfl⟩ := (OutBuffer.add_net32int_ok_iff _ _ _).1 h2
  obtain ⟨hc0, hc1, _, rfl⟩ := (OutBuffer.add_net32int_ok_iff _ _ _).1 h3
  obtain ⟨hd0, hd1, _, rfl⟩ := (OutBuffer.add_net32int_ok_iff _ _ _).1 h4
  obtain ⟨he0, he1, _, rfl⟩ := (OutBuffer.add_net32int_ok_iff _ _ _).1 h5
  obtain ⟨hf0, hf1, _, rfl⟩ := (OutBuffer.add_net32int_ok_iff _ _ _).1 h6
  obtain ⟨hg, _, rfl⟩ := (OutBuffer.add_bindict_ok_iff _ _ _).1 h7
  obtain ⟨hh, _, rfl⟩ := (OutBuffer.add_bindict_ok_iff _ _ _).1 h8
  refine ⟨by omega, by omega, by omega, by omega, by omega, hg, hh, ?_⟩
  injection h with h
  rw [← h]
  simp [OutBuffer.getvalue, Int.toNat_natCast, List.append_assoc]

theorem InBuffer.parse_message_enc (m : OmapiMessage) (w rest : List Nat) (ts : Nat)
    (hkm : dictKeysOk m.message) (hko : dictKeysOk m.obj)
    (henc : m.as_string false = .ok w) :
    InBuffer.parse_message ⟨w ++ rest, ts⟩ = some (m, ⟨rest, ts⟩) := by
  obtain ⟨hb0, hb1, hb2, hb3, hb4, hb5, hfm, hfo, rfl⟩ :=
    OmapiMessage.as_string_ok_decomp m w henc
  rw [InBuffer.parse_message]
  simp only [List.append_assoc]
  rw [InBuffer.parse_net32int_enc m.authid hb0 _ ts]
  simp only [Option.bind_eq_bind, Option.some_bind]
  rw [InBuffer.parse_net32int_enc m.signature.length hb1 _ ts]
  simp only [Option.bind_eq_bind, Option.some_bind]
  rw [InBuffer.parse_net32int_enc m.opcode hb2 _ ts]
  simp only [Option.bind_eq_bind, Option.some_bind]
  rw [InBuffer.parse_net32int_enc m.handle hb3 _ ts]
  simp only [Option.bind_eq_bind, Option.some_bind]
  rw [InBuffer.parse_net32int_enc m.tid hb4 _ ts]
  simp only [Option.bind_eq_bind, Option.some_bind]
  rw [InBuffer.parse_net32int_enc m.rid hb5 _ ts]
  simp only [Option.bind_eq_bind, Option.some_bind]
  rw [InBuffer.parse_bindict_enc m.message hfm hkm _ ts]
  simp only [Option.bind_eq_bind, Option.some_bind]
  rw [InBuffer.parse_bindict_enc m.obj hfo hko _ ts]
  simp only [Option.bind_eq_bind, Option.some_bind]
  rw [InBuffer.parse_fixed_exact m.signature rest ts]
  simp only [Option.bind_eq_bind, Option.some_bind]

/-- Claim C3: for a dictionary with non-empty keys of at most 65535 bytes and
values below 2^32 bytes whose encoding fits the size limit, parsing the
bindict encoding yields exactly the same pairs in the same order. -/
theorem claim_C3_bindict_roundtrip (D : List (List Nat × List Nat)) (b : OutBuffer)
    (ts : Nat)
    (hne : ∀ kv ∈ D, kv.1 ≠ ([] : List Nat))
    (hk : ∀ kv ∈ D, kv.1.length ≤ 65535)
    (hv : ∀ kv ∈ D, kv.2.length < 4294967296)
    (henc : OutBuffer.add_bindict ⟨[]⟩ D = .ok b) :
    InBuffer.parse_bindict ⟨b.getvalue, ts⟩ = some (D, ⟨[], ts⟩) := by
  obtain ⟨hfits, _, rfl⟩ := (OutBuffer.add_bindict_ok_iff _ _ _).1 henc
  simpa [OutBuffer.getvalue] using InBuffer.parse_bindict_enc D hfits hne [] ts

/-- Claim C3 witness: the round trip evaluated on `[("foo", "bar")]`. -/
theorem claim_C3_witness :
    (∀ kv ∈ c3D, kv.1 ≠ ([] : List Nat)) ∧ (∀ kv ∈ c3D, kv.1.length ≤ 65535) ∧
    (∀ kv ∈ c3D, kv.2.length < 4294967296) ∧
    OutBuffer.add_bindict ⟨[]⟩ c3D =
      .ok ⟨[0, 3, 102, 111, 111, 0, 0, 0, 3, 98, 97, 114, 0, 0]⟩ ∧
    InBuffer.parse_bindict
        ⟨OutBuffer.getvalue ⟨[0, 3, 102, 111, 111, 0, 0, 0, 3, 98, 97, 114, 0, 0]⟩, 0⟩ =
      some (c3D, ⟨[], 0⟩) :=
  ⟨by decide, by decide, by decide, by decide,
   claim_C3_bindict_roundtrip c3D _ 0 (by decide) (by decide) (by decide) (by decide)⟩

/-- Claim C7: a message whose signature is all-zero of length `authlen` and
whose dictionaries have non-empty keys, once serialized in full form, parses
back to a message equal in all eight semantic fields, consuming exactly the
signature bytes and leaving any trailing input untouched. -/
theorem claim_C7_message_roundtrip (m : OmapiMessage) (L : Nat) (w rest : List Nat)
    (ts : Nat)
    (hsig : m.signature = List.replicate L 0)
    (hkm : dictKeysOk m.message) (hko : dictKeysOk m.obj)
    (henc : m.as_string false = .ok w) :
    InBuffer.parse_message ⟨w ++ rest, ts⟩ = some (m, ⟨rest, ts⟩) :=
  InBuffer.parse_message_enc m w rest ts hkm hko henc

/-- Claim C7 witness: the message round trip evaluated on `c7msg`. -/
theorem claim_C7_witness :
    c7msg.signature = List.replicate 4 0 ∧
    dictKeysOk c7msg.message ∧ dictKeysOk c7msg.obj ∧
    c7msg.as_string false = .ok c7w ∧
    InBuffer.parse_message ⟨c7w ++ [9], 0⟩ = some (c7msg, ⟨[9], 0⟩) :=
  ⟨rfl, by decide, by decide, by decide,
   claim_C7_message_roundtrip c7msg 4 c7w [9] 0 rfl (by decide) (by decide)
     (by decide)⟩

/-- Claim C9: 16- and 32-bit big-endian encodings produced by the integer
encoders decode back to the original value with the remaining input intact,
and out-of-range integers are rejected with `ValueError` leaving the buffer
untouched. -/
theorem claim_C9_netint_roundtrip :
    (∀ (u : Nat) (b b' : OutBuffer), u < 65536 → b.add_net16int u = .ok b' →
      b'.buff = b.buff ++ net16enc u ∧
      ∀ (rest : List Nat) (ts : Nat),
        InBuffer.parse_net16int ⟨net16enc u ++ rest, ts⟩ = some (u, ⟨rest, ts⟩)) ∧
    (∀ (u : Nat) (b b' : OutBuffer), u < 4294967296 → b.add_net32int u = .ok b' →
      b'.buff = b.buff ++ net32enc u ∧
      ∀ (rest : List Nat) (ts : Nat),
        InBuffer.parse_net32int ⟨net32enc u ++ rest, ts⟩ = some (u, ⟨rest, ts⟩)) ∧
    (∀ (u : Int) (b : OutBuffer), u < 0 ∨ 65536 ≤ u →
      b.add_net16int u = .error (.valueError, b)) ∧
    (∀ (u : Int) (b : OutBuffer), u < 0 ∨ 4294967296 ≤ u →
      b.add_net32int u = .error (.valueError, b)) := by
  refine ⟨?_, ?_, ?_, ?_⟩
  · intro u b b' hu h
    obtain ⟨_, _, _, rfl⟩ := (OutBuffer.add_net16int_ok_iff _ _ _).1 h
    exact ⟨by simp, fun rest ts => InBuffer.parse_net16int_enc u hu rest ts⟩
  · intro u b b' hu h
    obtain ⟨_, _, _, rfl⟩ := (OutBuffer.add_net32int_ok_iff _ _ _).1 h
    exact ⟨by simp, fun rest ts => InBuffer.parse_net32int_enc u hu rest ts⟩
  · intro u b hu
    exact OutBuffer.add_net16int_err_of_out b u hu
  · intro u b hu
    exact OutBuffer.add_net32int_err_of_out b u hu

/-- Claim C9 witness: the round trip at 65535 and 4294967295 and rejections
at -1 and at the first out-of-range values. -/
theorem claim_C9_witness :
    ((⟨[255, 255]⟩ : OutBuffer).buff = OutBuffer.buff ⟨[]⟩ ++ net16enc 65535 ∧
      InBuffer.parse_net16int ⟨net16enc 65535 ++ [7], 3⟩ = some (65535, ⟨[7], 3⟩)) ∧
    ((⟨[255, 255, 255, 255]⟩ : OutBuffer).buff =
        OutBuffer.buff ⟨[]⟩ ++ net32enc 4294967295 ∧
      InBuffer.parse_net32int ⟨net32enc 4294967295 ++ [7], 3⟩ =
        some (4294967295, ⟨[7], 3⟩)) ∧
    OutBuffer.add_net16int ⟨[5]⟩ (-1) = .error (.valueError, ⟨[5]⟩) ∧
    OutBuffer.add_net16int ⟨[5]⟩ 65536 = .error (.valueError, ⟨[5]⟩) ∧
    OutBuffer.add_net32int ⟨[5]⟩ (-1) = .error (.valueError, ⟨[5]⟩) ∧
    OutBuffer.add_net32int ⟨[5]⟩ 4294967296 = .error (.valueError, ⟨[5]⟩) :=
  ⟨claim_C9_netint_roundtrip.1 65535 ⟨[]⟩ ⟨[255, 255]⟩ (by decide) (by decide)
    |>.imp id (fun h => h [7] 3),
   claim_C9_netint_roundtrip.2.1 4294967295 ⟨[]⟩ ⟨[255, 255, 255, 255]⟩
    (by decide) (by decide) |>.imp id (fun h => h [7] 3),
   claim_C9_netint_roundtrip.2.2.1 (-1) ⟨[5]⟩ (Or.inl (by decide)),
   claim_C9_netint_roundtrip.2.2.1 65536 ⟨[5]⟩ (Or.inr (by decide)),
   claim_C9_netint_roundtrip.2.2.2 (-1) ⟨[5]⟩ (Or.inl (by decide)),
   claim_C9_netint_roundtrip.2.2.2 4294967296 ⟨[5]⟩ (Or.inr (by decide))⟩

/-- Claim C6: `update_object` removes from `obj` exactly the entries whose
key occurs in the update (the remaining entries keep their relative order,
as a filter), appends all update pairs in order, and leaves every other
field of the message unchanged. -/
theorem claim_C6_update_object (m : OmapiMessage) (d : List (List Nat × List Nat)) :
    (m.update_object d).obj =
      (m.obj.filter fun kv => decide (kv.1 ∉ d.map Prod.fst)) ++ d ∧
    (m.update_object d).authid = m.authid ∧
    (m.update_object d).opcode = m.opcode ∧
    (m.update_object d).handle = m.handle ∧
    (m.update_object d).tid = m.tid ∧
    (m.update_object d).rid = m.rid ∧
    (m.update_object d).message = m.message ∧
    (m.update_object d).signature = m.signature := by
  refine ⟨?_, rfl, rfl, rfl, rfl, rfl, rfl, rfl⟩
  show (m.obj.filter fun kv => ! d.any fun uv => uv.1 == kv.1) ++ d = _
  congr 1
  apply List.filter_congr
  intro kv _
  by_cases h : kv.1 ∈ d.map Prod.fst
  · obtain ⟨uv, huv, heq⟩ := List.mem_map.1 h
    have ha : d.any (fun uv => uv.1 == kv.1) = true :=
      List.any_eq_true.2 ⟨uv, huv, by simp [heq]⟩
    simp [ha, h]
  · have ha : d.any (fun uv => uv.1 == kv.1) = false := by
      rw [List.any_eq_false]
      intro uv huv heq
      exact h (List.mem_map.2 ⟨uv, huv, by simpa using heq⟩)
    simp [ha, h]

/-- Claim C8: a message signed successfully once is a fixed point of signing
with the same authenticator (so the wire bytes after the first and second
signing are identical), and its signature length equals the authenticator's
`authlen`. -/
theorem claim_C8_sign_idempotent (m m1 : OmapiMessage) (a : OmapiAuthenticator)
    (h : m.sign a = .ok m1) :
    m1.sign a = .ok m1 ∧ m1.signature.length = a.authlen := by
  rw [OmapiMessage.sign] at h
  obtain ⟨s, hs, h⟩ := (bind_eq_ok _ _ _).1 h
  dsimp only at hs h
  split_ifs at h with hlen
  injection h with h
  subst h
  refine ⟨?_, hlen⟩
  rw [OmapiMessage.sign]
  dsimp only
  rw [hs, bind_ok_left, if_pos hlen]
  rfl

/-- Claim C8 witness: signing the default message with the null
authenticator, then applying the theorem. -/
theorem claim_C8_witness :
    OmapiMessage.sign {} OmapiNullAuthenticator = .ok {} ∧
    ({} : OmapiMessage).signature.length = OmapiNullAuthenticator.authlen :=
  claim_C8_sign_idempotent {} {} OmapiNullAuthenticator (by decide)

theorem as_string_forsigning_only (m m' : OmapiMessage)
    (h1 : m.signature.length = m'.signature.length)
    (h2 : m.opcode = m'.opcode) (h3 : m.handle = m'.handle)
    (h4 : m.tid = m'.tid) (h5 : m.rid = m'.rid)
    (h6 : m.message = m'.message) (h7 : m.obj = m'.obj) :
    m.as_string true = m'.as_string true := by
  simp only [OmapiMessage.as_string, eq_self_iff_true, if_true,
    h1, h2, h3, h4, h5, h6, h7]

theorem parseSigningForm_enc (m : OmapiMessage) (w rest : List Nat) (ts : Nat)
    (hkm : dictKeysOk m.message) (hko : dictKeysOk m.obj)
    (h : m.as_string true = .ok w) :
    parseSigningForm ⟨w ++ rest, ts⟩ =
      some ((m.signature.length, m.opcode, m.handle, m.tid, m.rid,
        m.message, m.obj), ⟨rest, ts⟩) := by
  obtain ⟨h1, h2, h3, h4, h5, hfm, hfo, rfl⟩ :=
    OmapiMessage.as_string_forsigning_decomp m w h
  rw [parseSigningForm]
  simp only [List.append_assoc]
  rw [InBuffer.parse_net32int_enc m.signature.length h1 _ ts]
  simp only [Option.bind_eq_bind, Option.some_bind]
  rw [InBuffer.parse_net32int_enc m.opcode h2 _ ts]
  simp only [Option.bind_eq_bind, Option.some_bind]
  rw [InBuffer.parse_net32int_enc m.handle h3 _ ts]
  simp only [Option.bind_eq_bind, Option.some_bind]
  rw [InBuffer.parse_net32int_enc m.tid h4 _ ts]
  simp only [Option.bind_eq_bind, Option.some_bind]
  rw [InBuffer.parse_net32int_enc m.rid h5 _ ts]
  simp only [Option.bind_eq_bind, Option.some_bind]
  rw [InBuffer.parse_bindict_enc m.message hfm hkm _ ts]
  simp only [Option.bind_eq_bind, Option.some_bind]
  rw [InBuffer.parse_bindict_enc m.obj hfo hko _ ts]
  simp only [Option.bind_eq_bind, Option.some_bind]

/-- Claim C2 (amended): the for-signing serialization ignores `authid` and
depends on the signature only through its length; a signed message still
verifies after its `authid` is redirected to any id that resolves to the
signing authenticator; and the for-signing bytes uniquely determine the
signature length, `opcode`, `handle`, `tid`, `rid` and both dictionaries
(for well-formed dictionaries), so any such mutation changes the signed
bytes — verification then fails exactly for authenticators whose `sign`
distinguishes the two byte strings, which the constant null signer does
not. -/
theorem claim_C2_signature_coverage :
    (∀ m m' : OmapiMessage,
      m.signature.length = m'.signature.length → m.opcode = m'.opcode →
      m.handle = m'.handle → m.tid = m'.tid → m.rid = m'.rid →
      m.message = m'.message → m.obj = m'.obj →
      m.as_string true = m'.as_string true) ∧
    (∀ (m m1 : OmapiMessage) (a : OmapiAuthenticator)
      (auths : Nat → Option OmapiAuthenticator) (i : Nat),
      m.sign a = .ok m1 → auths i = some a →
      OmapiMessage.verify { m1 with authid := i } auths = .ok true) ∧
    (∀ (m m' : OmapiMessage) (w : List Nat),
      dictKeysOk m.message → dictKeysOk m.obj →
      dictKeysOk m'.message → dictKeysOk m'.obj →
      m.as_string true = .ok w → m'.as_string true = .ok w →
      m.signature.length = m'.signature.length ∧ m.opcode = m'.opcode ∧
      m.handle = m'.handle ∧ m.tid = m'.tid ∧ m.rid = m'.rid ∧
      m.message = m'.message ∧ m.obj = m'.obj) := by
  refine ⟨as_string_forsigning_only, ?_, ?_⟩
  · intro m m1 a auths i hsig hi
    rw [OmapiMessage.sign] at hsig
    obtain ⟨s, hs, h⟩ := (bind_eq_ok _ _ _).1 hsig
    dsimp only at hs h
    split_ifs at h with hlen
    injection h with h
    subst h
    rw [OmapiMessage.verify]
    dsimp only
    rw [hi]
    dsimp only
    have heq2 : OmapiMessage.as_string
        { authid := i, opcode := m.opcode, handle := m.handle, tid := m.tid,
          rid := m.rid, message := m.message, obj := m.obj,
          signature := a.sign s } true =
        OmapiMessage.as_string
        { authid := a.authid, opcode := m.opcode, handle := m.handle,
          tid := m.tid, rid := m.rid, message := m.message, obj := m.obj,
          signature := List.replicate a.authlen 0 } true :=
      as_string_forsigning_only _ _ (by simpa using hlen) rfl rfl rfl rfl rfl rfl
    rw [heq2, hs]
    simp [Except.map]
  · intro m m' w hkm hko hkm' hko' h h'
    have p1 := parseSigningForm_enc m w [] 0 hkm hko h
    have p2 := parseSigningForm_enc m' w [] 0 hkm' hko' h'
    rw [p1] at p2
    simp only [Option.some.injEq, Prod.mk.injEq] at p2
    obtain ⟨⟨e1, e2, e3, e4, e5, e6, e7⟩, _⟩ := p2
    exact ⟨e1, e2, e3, e4, e5, e6, e7⟩

/-- Claim C2 counterexample: the empty message signed with the null
authenticator still verifies after its `opcode` is mutated, because the
null signer is constant — refuting "mutating opcode ... makes verification
fail" as universally stated. -/
theorem claim_C2_counterexample :
    OmapiMessage.sign {} OmapiNullAuthenticator = .ok {} ∧
    ({ ({} : OmapiMessage) with opcode := 5 }).opcode ≠ ({} : OmapiMessage).opcode ∧
    OmapiMessage.verify { ({} : OmapiMessage) with opcode := 5 } c2auths =
      .ok true := by
  refine ⟨by decide, by decide, by decide⟩

/-- Claim C2 witness: the three parts of the amended claim applied at
concrete messages. -/
theorem claim_C2_witness :
    OmapiMessage.as_string
        { authid := 3, tid := 1, signature := [9] } true =
      OmapiMessage.as_string
        { authid := 4, tid := 1, signature := [8] } true ∧
    OmapiMessage.verify { ({} : OmapiMessage) with authid := 0 } c2auths =
      .ok true ∧
    (({} : OmapiMessage).signature.length = ({} : OmapiMessage).signature.length ∧
      ({} : OmapiMessage).opcode = ({} : OmapiMessage).opcode ∧
      ({} : OmapiMessage).handle = ({} : OmapiMessage).handle ∧
      ({} : OmapiMessage).tid = ({} : OmapiMessage).tid ∧
      ({} : OmapiMessage).rid = ({} : OmapiMessage).rid ∧
      ({} : OmapiMessage).message = ({} : OmapiMessage).message ∧
      ({} : OmapiMessage).obj = ({} : OmapiMessage).obj) :=
  ⟨claim_C2_signature_coverage.1
      { authid := 3, tid := 1, signature := [9] }
      { authid := 4, tid := 1, signature := [8] } rfl rfl rfl rfl rfl rfl rfl,
   claim_C2_signature_coverage.2.1 {} {} OmapiNullAuthenticator c2auths 0
      (by decide) rfl,
   claim_C2_signature_coverage.2.2 {} {} (List.replicate 24 0)
      (by decide) (by decide) (by decide) (by decide) (by decide) (by decide)⟩

/-- Claim C1 (amended): every encode operation that would push the
accumulated bytes above 65536 raises SizeLimit, but because the write
happens before the size check, the buffer then holds strictly more than the
last successful write: the previously accumulated bytes followed by the
bytes written by the failing operation up to and including the write that
crossed the limit. -/
theorem claim_C1_sizelimit :
    (∀ (b : OutBuffer) (data : List Nat),
      sizelimit < b.buff.length + data.length →
      b.add data = .error (.sizeLimit, ⟨b.buff ++ data⟩)) ∧
    (∀ (b : OutBuffer) (u : Nat), u < 65536 →
      sizelimit < b.buff.length + 2 →
      b.add_net16int u = .error (.sizeLimit, ⟨b.buff ++ net16enc u⟩)) ∧
    (∀ (b : OutBuffer) (u : Nat), u < 4294967296 →
      sizelimit < b.buff.length + 4 →
      b.add_net32int u = .error (.sizeLimit, ⟨b.buff ++ net32enc u⟩)) ∧
    (∀ (b : OutBuffer) (s : List Nat), s.length < 65536 →
      sizelimit < b.buff.length + 2 + s.length →
      ∃ e, b.add_net16string s = .error (.sizeLimit, e) ∧
        (∃ t, t ≠ [] ∧ e.buff = b.buff ++ t) ∧ sizelimit < e.buff.length) ∧
    (∀ (b : OutBuffer) (s : List Nat), s.length < 4294967296 →
      sizelimit < b.buff.length + 4 + s.length →
      ∃ e, b.add_net32string s = .error (.sizeLimit, e) ∧
        (∃ t, t ≠ [] ∧ e.buff = b.buff ++ t) ∧ sizelimit < e.buff.length) ∧
    (∀ (b : OutBuffer) (items : List (List Nat × List Nat)), dictFits items →
      sizelimit < b.buff.length + (bindictEnc items).length →
      ∃ e, b.add_bindict items = .error (.sizeLimit, e) ∧
        (∃ t, t ≠ [] ∧ e.buff = b.buff ++ t) ∧ sizelimit < e.buff.length) := by
  refine ⟨?_, ?_, ?_, ?_, ?_, ?_⟩
  · intro b data h
    rw [OutBuffer.add_eq, if_pos h]
  · intro b u hu h
    rw [OutBuffer.add_net16int_eq_of_range b u (by omega) (by omega),
      OutBuffer.add_eq]
    simp only [Int.toNat_natCast, List.length_append, net16enc_length]
    rw [if_pos (by omega)]
  · intro b u hu h
    rw [OutBuffer.add_net32int_eq_of_range b u (by omega) (by omega),
      OutBuffer.add_eq]
    simp only [Int.toNat_natCast, List.length_append, net32enc_length]
    rw [if_pos (by omega)]
  · intro b s hs h
    rw [OutBuffer.add_net16string_eq b s hs]
    by_cases h1 : sizelimit < b.buff.length + 2
    · rw [if_pos h1]
      refine ⟨_, rfl, ⟨net16enc s.length, by simp [net16enc], rfl⟩, ?_⟩
      simp only [List.length_append, net16enc_length]
      omega
    · rw [if_neg h1, if_pos (by omega)]
      refine ⟨_, rfl, ⟨net16enc s.length ++ s, by simp [net16enc], by simp⟩, ?_⟩
      simp only [List.length_append, net16enc_length]
      omega
  · intro b s hs h
    rw [OutBuffer.add_net32string_eq b s hs]
    by_cases h1 : sizelimit < b.buff.length + 4
    · rw [if_pos h1]
      refine ⟨_, rfl, ⟨net32enc s.length, by simp [net32enc], rfl⟩, ?_⟩
      simp only [List.length_append, net32enc_length]
      omega
    · rw [if_neg h1, if_pos (by omega)]
      refine ⟨_, rfl, ⟨net32enc s.length ++ s, by simp [net32enc], by simp⟩, ?_⟩
      simp only [List.length_append, net32enc_length]
      omega
  · intro b items hwf h
    exact OutBuffer.add_bindict_sizeLimit b items hwf h

theorem zeros65536_length : zeros65536.length = 65536 := by
  rw [zeros65536, List.length_replicate]

theorem zeros65535_length : zeros65535.length = 65535 := by
  rw [zeros65535, List.length_replicate]

theorem zeros65533_length : zeros65533.length = 65533 := by
  rw [zeros65533, List.length_replicate]

/-- Claim C1 counterexample: with 65536 bytes accumulated, adding one byte
raises SizeLimit, but `getvalue` afterwards returns 65537 bytes, not the
bytes accumulated before the failing operation - the write precedes the size
check, refuting the rollback part of the claim. -/
theorem claim_C1_counterexample :
    OutBuffer.add ⟨zeros65536⟩ [7] = .error (.sizeLimit, ⟨zeros65536 ++ [7]⟩) ∧
    OutBuffer.getvalue ⟨zeros65536 ++ [7]⟩ ≠ OutBuffer.getvalue ⟨zeros65536⟩ := by
  have hb : OutBuffer.buff ⟨zeros65536⟩ = zeros65536 := rfl
  constructor
  · have hc : sizelimit <
        (OutBuffer.buff ⟨zeros65536⟩).length + ([7] : List Nat).length := by
      rw [hb, zeros65536_length]
      simp only [sizelimit, List.length_cons, List.length_nil]
      omega
    rw [OutBuffer.add_eq, if_pos hc]
  · intro hcontra
    have hlen : (zeros65536 ++ [7]).length = zeros65536.length :=
      congrArg List.length hcontra
    rw [List.length_append, zeros65536_length] at hlen
    simp only [List.length_cons, List.length_nil] at hlen
    omega

/-- Claim C1 witness: the amended claim applied to concrete overflowing
writes for the raw, 16-bit-integer and 32-bit-integer encoders. -/
theorem claim_C1_witness :
    OutBuffer.add ⟨zeros65535⟩ [1, 2] =
      .error (.sizeLimit, ⟨zeros65535 ++ [1, 2]⟩) ∧
    OutBuffer.add_net16int ⟨zeros65535⟩ 3 =
      .error (.sizeLimit, ⟨zeros65535 ++ net16enc 3⟩) ∧
    OutBuffer.add_net32int ⟨zeros65533⟩ 3 =
      .error (.sizeLimit, ⟨zeros65533 ++ net32enc 3⟩) :=
  ⟨claim_C1_sizelimit.1 ⟨zeros65535⟩ [1, 2] (by
      have hb : OutBuffer.buff ⟨zeros65535⟩ = zeros65535 := rfl
      rw [hb, zeros65535_length]
      simp only [sizelimit, List.length_cons, List.length_nil]
      omega),
   claim_C1_sizelimit.2.1 ⟨zeros65535⟩ 3 (by omega) (by
      have hb : OutBuffer.buff ⟨zeros65535⟩ = zeros65535 := rfl
      rw [hb, zeros65535_length]
      simp only [sizelimit]
      omega),
   claim_C1_sizelimit.2.2.1 ⟨zeros65533⟩ 3 (by omega) (by
      have hb : OutBuffer.buff ⟨zeros65533⟩ = zeros65533 := rfl
      rw [hb, zeros65533_length]
      simp only [sizelimit]
      omega)⟩

theorem pySplit_no_sep (sep : Nat) (g : List Nat) (h : sep ∉ g) :
    pySplit sep g = [g] := by
  induction g with
  | nil => rfl
  | cons c rest ih =>
    rw [pySplit,
      if_neg (show c ≠ sep from
        fun hc => h (List.mem_cons.mpr (Or.inl hc.symm))),
      ih (fun hm => h (List.mem_cons_of_mem c hm))]

theorem pySplit_sep_append (sep : Nat) (g rest : List Nat) (h : sep ∉ g) :
    pySplit sep (g ++ sep :: rest) = g :: pySplit sep rest := by
  induction g with
  | nil =>
    rw [List.nil_append, pySplit, if_pos rfl]
  | cons c g' ih =>
    rw [List.cons_append, pySplit,
      if_neg (show c ≠ sep from
        fun hc => h (List.mem_cons.mpr (Or.inl hc.symm))),
      ih (fun hm => h (List.mem_cons_of_mem c hm))]

theorem decVal_append_digit (s : List Nat) (c : Nat) :
    decVal (s ++ [c]) = 10 * decVal s + (c - 48) := by
  rw [decVal, List.foldl_append, decVal]
  simp [Nat.mul_comm]

theorem decVal_from_ge_one (s : List Nat) :
    ∀ a, 1 ≤ a → 1 ≤ s.foldl (fun a c => a * 10 + (c - 48)) a := by
  induction s with
  | nil => intro a ha; simpa using ha
  | cons c t ih =>
    intro a ha
    rw [List.foldl_cons]
    exact ih _ (by omega)

theorem decVal_pos_of_no_zero (c : Nat) (t : List Nat) (hc : 49 ≤ c) :
    1 ≤ decVal (c :: t) := by
  rw [decVal, List.foldl_cons]
  exact decVal_from_ge_one t _ (by omega)

theorem natToDec_decVal (s : List Nat) (hne : s ≠ [])
    (hdig : ∀ c ∈ s, isDigitB c = true)
    (hcanon : s.head? = some 48 → s = [48]) :
    natToDec (decVal s) = s := by
  induction s using List.reverseRecOn with
  | nil => exact absurd rfl hne
  | append_singleton ds c ih =>
    have hc : isDigitB c = true := hdig c (by simp)
    rw [isDigitB, Bool.and_eq_true, decide_eq_true_eq, decide_eq_true_eq] at hc
    rw [decVal_append_digit]
    match ds, hcanon with
    | [], _ =>
      rw [decVal]
      simp only [List.foldl_nil, Nat.mul_zero, Nat.zero_add]
      rw [natToDec, if_pos (by omega)]
      congr 1
      omega
    | d :: ds', hcanon =>
      have hd : isDigitB d = true := hdig d (by simp)
      rw [isDigitB, Bool.and_eq_true, decide_eq_true_eq, decide_eq_true_eq] at hd
      have hd48 : d ≠ 48 := by
        intro hcontra
        subst hcontra
        have := hcanon (by simp)
        have hlen := congrArg List.length this
        simp at hlen
      have hpos : 1 ≤ decVal (d :: ds') :=
        decVal_pos_of_no_zero d ds' (by omega)
      have hih : natToDec (decVal (d :: ds')) = d :: ds' := by
        apply ih (by simp) (fun x hx => hdig x (List.mem_append_left _ hx))
        intro hh
        simp only [List.head?_cons, Option.some.injEq] at hh
        exact absurd hh hd48
      rw [natToDec, if_neg (by omega)]
      have hq : (10 * decVal (d :: ds') + (c - 48)) / 10 = decVal (d :: ds') := by
        omega
      have hr : (10 * decVal (d :: ds') + (c - 48)) % 10 = c - 48 := by
        omega
      rw [hq, hr, hih]
      congr 1
      congr 1
      omega

theorem hexVal_lt (b : Nat) (h : isHexDigitB b = true) : hexVal b < 16 := by
  simp only [isHexDigitB, Bool.or_eq_true, Bool.and_eq_true,
    decide_eq_true_eq] at h
  rw [hexVal]
  split_ifs <;> omega

theorem hexDigitB_hexVal (b : Nat) (h : isHexDigitB b = true) :
    hexDigitB (hexVal b) = pyLowerB b := by
  simp only [isHexDigitB, Bool.or_eq_true, Bool.and_eq_true,
    decide_eq_true_eq] at h
  rw [hexVal, hexDigitB, pyLowerB]
  split_ifs <;> omega

theorem hexVal_zero_digit (b : Nat) (h : isHexDigitB b = true)
    (h0 : hexVal b = 0) : b = 48 := by
  simp only [isHexDigitB, Bool.or_eq_true, Bool.and_eq_true,
    decide_eq_true_eq] at h
  rw [hexVal] at h0
  split_ifs at h0 <;> omega

theorem fmt22x_pair (x y : Nat) (hx : isHexDigitB x = true)
    (hy : isHexDigitB y = true) :
    fmt22x (hexVal x * 16 + hexVal y) = [pyLowerB x, pyLowerB y] := by
  have hxlt := hexVal_lt x hx
  have hylt := hexVal_lt y hy
  by_cases h0 : hexVal x = 0
  · have hx48 := hexVal_zero_digit x hx h0
    rw [h0]
    simp only [Nat.zero_mul, Nat.zero_add]
    rw [fmt22x, natToHex, if_pos hylt, hexDigitB_hexVal y hy]
    subst hx48
    rw [show pyLowerB 48 = 48 from rfl]
    rfl
  · rw [fmt22x, natToHex, if_neg (by omega)]
    have hq : (hexVal x * 16 + hexVal y) / 16 = hexVal x := by omega
    have hr : (hexVal x * 16 + hexVal y) % 16 = hexVal y := by omega
    rw [hq, hr, natToHex, if_pos hxlt, hexDigitB_hexVal x hx,
      hexDigitB_hexVal y hy]
    rfl

theorem not_mem_of_digits (g : List Nat) (hd : ∀ c ∈ g, isDigitB c = true) :
    46 ∉ g := by
  intro hm
  have := hd 46 hm
  rw [isDigitB] at this
  simp at this

theorem not_mem_of_hexdigits (g : List Nat)
    (hd : ∀ c ∈ g, isHexDigitB c = true) : 58 ∉ g := by
  intro hm
  have := hd 58 hm
  simp only [isHexDigitB, Bool.or_eq_true, Bool.and_eq_true,
    decide_eq_true_eq] at this
  omega

theorem pyIntDec_digits (g : List Nat) (hne : g ≠ [])
    (hd : ∀ c ∈ g, isDigitB c = true) : pyIntDec g = some (decVal g) := by
  rw [pyIntDec, if_neg, decVal]
  rw [not_or]
  refine ⟨hne, ?_⟩
  simp only [not_not, List.all_eq_true]
  exact hd

theorem pyIntHex_pair (x y : Nat) (hx : isHexDigitB x = true)
    (hy : isHexDigitB y = true) :
    pyIntHex [x, y] = some (hexVal x * 16 + hexVal y) := by
  rw [pyIntHex, if_neg]
  · rw [show ([x, y] : List Nat).foldl (fun a c => a * 16 + hexVal c) 0 =
      (0 * 16 + hexVal x) * 16 + hexVal y from rfl]
    congr 1
    omega
  · rw [not_or]
    refine ⟨by simp, ?_⟩
    simp only [not_not, List.all_eq_true]
    intro c hc
    rcases List.mem_cons.1 hc with rfl | hc
    · exact hx
    · rcases List.mem_cons.1 hc with rfl | hc
      · exact hy
      · cases hc

theorem pack_ip_quad (g1 g2 g3 g4 : List Nat)
    (h : ∀ g ∈ [g1, g2, g3, g4],
      g ≠ [] ∧ (∀ c ∈ g, isDigitB c = true) ∧ decVal g ≤ 255) :
    pack_ip (g1 ++ 46 :: (g2 ++ 46 :: (g3 ++ 46 :: g4))) =
      .ok [decVal g1, decVal g2, decVal g3, decVal g4] := by
  obtain ⟨hne1, hd1, hv1⟩ := h g1 (by simp)
  obtain ⟨hne2, hd2, hv2⟩ := h g2 (by simp)
  obtain ⟨hne3, hd3, hv3⟩ := h g3 (by simp)
  obtain ⟨hne4, hd4, hv4⟩ := h g4 (by simp)
  have hsplit : pySplit 46 (g1 ++ 46 :: (g2 ++ 46 :: (g3 ++ 46 :: g4))) =
      [g1, g2, g3, g4] := by
    rw [pySplit_sep_append 46 g1 _ (not_mem_of_digits g1 hd1),
        pySplit_sep_append 46 g2 _ (not_mem_of_digits g2 hd2),
        pySplit_sep_append 46 g3 _ (not_mem_of_digits g3 hd3),
        pySplit_no_sep 46 g4 (not_mem_of_digits g4 hd4)]
  rw [pack_ip, hsplit]
  have bind_pure_left : ∀ {a b : Type} (x : a) (f : a → Except OmapiErr b),
      (pure x : Except OmapiErr a) >>= f = f x := fun _ _ => rfl
  rw [if_neg (by simp), bind_pure_left]
  rw [List.mapM_cons, pyIntDec_digits g1 hne1 hd1,
      List.mapM_cons, pyIntDec_digits g2 hne2 hd2,
      List.mapM_cons, pyIntDec_digits g3 hne3 hd3,
      List.mapM_cons, pyIntDec_digits g4 hne4 hd4,
      List.mapM_nil]
  dsimp only
  simp only [bind_pure_left]
  rw [List.mapM_cons, if_pos (show decVal g1 < 256 by omega)]
  rw [List.mapM_cons, if_pos (show decVal g2 < 256 by omega)]
  rw [List.mapM_cons, if_pos (show decVal g3 < 256 by omega)]
  rw [List.mapM_cons, if_pos (show decVal g4 < 256 by omega)]
  rw [List.mapM_nil]
  simp only [bind_pure_left]
  rfl

theorem unpack_ip_quad (v1 v2 v3 v4 : Nat) :
    unpack_ip [v1, v2, v3, v4] =
      .ok (natToDec v1 ++ 46 :: (natToDec v2 ++ 46 ::
        (natToDec v3 ++ 46 :: natToDec v4))) := by
  rw [unpack_ip, if_neg (by simp)]
  rfl

theorem pack_mac_pairs (x1 y1 x2 y2 x3 y3 x4 y4 x5 y5 x6 y6 : Nat)
    (hx1 : isHexDigitB x1 = true) (hy1 : isHexDigitB y1 = true)
    (hx2 : isHexDigitB x2 = true) (hy2 : isHexDigitB y2 = true)
    (hx3 : isHexDigitB x3 = true) (hy3 : isHexDigitB y3 = true)
    (hx4 : isHexDigitB x4 = true) (hy4 : isHexDigitB y4 = true)
    (hx5 : isHexDigitB x5 = true) (hy5 : isHexDigitB y5 = true)
    (hx6 : isHexDigitB x6 = true) (hy6 : isHexDigitB y6 = true) :
    pack_mac ([x1, y1] ++ 58 :: ([x2, y2] ++ 58 :: ([x3, y3] ++ 58 ::
        ([x4, y4] ++ 58 :: ([x5, y5] ++ 58 :: [x6, y6]))))) =
      .ok [hexVal x1 * 16 + hexVal y1, hexVal x2 * 16 + hexVal y2,
           hexVal x3 * 16 + hexVal y3, hexVal x4 * 16 + hexVal y4,
           hexVal x5 * 16 + hexVal y5, hexVal x6 * 16 + hexVal y6] := by
  have hp : ∀ x y : Nat, isHexDigitB x = true → isHexDigitB y = true →
      (58 : Nat) ∉ [x, y] := by
    intro x y hx hy
    apply not_mem_of_hexdigits
    intro c hc
    rcases List.mem_cons.1 hc with rfl | hc
    · exact hx
    · rcases List.mem_cons.1 hc with rfl | hc
      · exact hy
      · cases hc
  have hsplit : pySplit 58 ([x1, y1] ++ 58 :: ([x2, y2] ++ 58 :: ([x3, y3] ++ 58 ::
      ([x4, y4] ++ 58 :: ([x5, y5] ++ 58 :: [x6, y6]))))) =
      [[x1, y1], [x2, y2], [x3, y3], [x4, y4], [x5, y5], [x6, y6]] := by
    rw [pySplit_sep_append 58 _ _ (hp x1 y1 hx1 hy1),
        pySplit_sep_append 58 _ _ (hp x2 y2 hx2 hy2),
        pySplit_sep_append 58 _ _ (hp x3 y3 hx3 hy3),
        pySplit_sep_append 58 _ _ (hp x4 y4 hx4 hy4),
        pySplit_sep_append 58 _ _ (hp x5 y5 hx5 hy5),
        pySplit_no_sep 58 _ (hp x6 y6 hx6 hy6)]
  rw [pack_mac, hsplit]
  have bind_pure_left : ∀ {a b : Type} (x : a) (f : a → Except OmapiErr b),
      (pure x : Except OmapiErr a) >>= f = f x := fun _ _ => rfl
  rw [if_neg (by simp), bind_pure_left]
  rw [List.mapM_cons, pyIntHex_pair x1 y1 hx1 hy1,
      List.mapM_cons, pyIntHex_pair x2 y2 hx2 hy2,
      List.mapM_cons, pyIntHex_pair x3 y3 hx3 hy3,
      List.mapM_cons, pyIntHex_pair x4 y4 hx4 hy4,
      List.mapM_cons, pyIntHex_pair x5 y5 hx5 hy5,
      List.mapM_cons, pyIntHex_pair x6 y6 hx6 hy6,
      List.mapM_nil]
  dsimp only
  simp only [bind_pure_left]
  have hlt : ∀ x y : Nat, isHexDigitB x = true → isHexDigitB y = true →
      hexVal x * 16 + hexVal y < 256 := by
    intro x y hx hy
    have := hexVal_lt x hx
    have := hexVal_lt y hy
    omega
  rw [List.mapM_cons, if_pos (hlt x1 y1 hx1 hy1)]
  rw [List.mapM_cons, if_pos (hlt x2 y2 hx2 hy2)]
  rw [List.mapM_cons, if_pos (hlt x3 y3 hx3 hy3)]
  rw [List.mapM_cons, if_pos (hlt x4 y4 hx4 hy4)]
  rw [List.mapM_cons, if_pos (hlt x5 y5 hx5 hy5)]
  rw [List.mapM_cons, if_pos (hlt x6 y6 hx6 hy6)]
  rw [List.mapM_nil]
  simp only [bind_pure_left]
  rfl

theorem unpack_mac_six (v1 v2 v3 v4 v5 v6 : Nat) :
    unpack_mac [v1, v2, v3, v4, v5, v6] =
      .ok (fmt22x v1 ++ 58 :: (fmt22x v2 ++ 58 :: (fmt22x v3 ++ 58 ::
        (fmt22x v4 ++ 58 :: (fmt22x v5 ++ 58 :: fmt22x v6))))) := by
  rw [unpack_mac, if_neg (by simp)]
  rfl

/-- Claim C5 (amended): `unpack_ip (pack_ip s) = s` for every dotted quad
whose octets are written canonically (no leading zeros), and
`unpack_mac (pack_mac t) = t.lower()` for every colon-hex MAC written as
six pairs of hexadecimal digits. -/
theorem claim_C5_pack_roundtrip (s t : List Nat)
    (hs : ipQuadCanon s) (ht : macPairs t) :
    (pack_ip s >>= unpack_ip) = Except.ok s ∧
    (pack_mac t >>= unpack_mac) = Except.ok (pyLower t) := by
  constructor
  · obtain ⟨g1, g2, g3, g4, rfl, hg⟩ := hs
    rw [pack_ip_quad g1 g2 g3 g4
      (fun g hm => ⟨(hg g hm).1, (hg g hm).2.1, (hg g hm).2.2.1⟩),
      bind_ok_left, unpack_ip_quad]
    obtain ⟨hne1, hd1, _, hc1⟩ := hg g1 (by simp)
    obtain ⟨hne2, hd2, _, hc2⟩ := hg g2 (by simp)
    obtain ⟨hne3, hd3, _, hc3⟩ := hg g3 (by simp)
    obtain ⟨hne4, hd4, _, hc4⟩ := hg g4 (by simp)
    rw [natToDec_decVal g1 hne1 hd1 hc1, natToDec_decVal g2 hne2 hd2 hc2,
        natToDec_decVal g3 hne3 hd3 hc3, natToDec_decVal g4 hne4 hd4 hc4]
  · obtain ⟨x1, y1, x2, y2, x3, y3, x4, y4, x5, y5, x6, y6, rfl, hx⟩ := ht
    simp only [Bool.and_eq_true] at hx
    obtain ⟨⟨⟨⟨⟨⟨⟨⟨⟨⟨⟨h1, h2⟩, h3⟩, h4⟩, h5⟩, h6⟩, h7⟩, h8⟩, h9⟩, h10⟩, h11⟩, h12⟩ := hx
    rw [pack_mac_pairs x1 y1 x2 y2 x3 y3 x4 y4 x5 y5 x6 y6
        h1 h2 h3 h4 h5 h6 h7 h8 h9 h10 h11 h12,
      bind_ok_left, unpack_mac_six,
      fmt22x_pair x1 y1 h1 h2, fmt22x_pair x2 y2 h3 h4,
      fmt22x_pair x3 y3 h5 h6, fmt22x_pair x4 y4 h7 h8,
      fmt22x_pair x5 y5 h9 h10, fmt22x_pair x6 y6 h11 h12]
    rw [pyLower]
    simp only [List.map_append, List.map_cons, List.map_nil]
    rw [show pyLowerB 58 = 58 from rfl]

theorem natToDec_zero : natToDec 0 = [48] := by
  rw [natToDec, if_pos (by omega)]

/-- Claim C5 counterexample: "00.0.0.0" is a dotted quad with octets in
[0,255], but the round trip renders it "0.0.0.0", so unpack(pack(s)) differs
from s when an octet has a leading zero. -/
theorem claim_C5_counterexample :
    ipQuad [48, 48, 46, 48, 46, 48, 46, 48] ∧
    (pack_ip [48, 48, 46, 48, 46, 48, 46, 48] >>= unpack_ip) =
      Except.ok [48, 46, 48, 46, 48, 46, 48] ∧
    (pack_ip [48, 48, 46, 48, 46, 48, 46, 48] >>= unpack_ip) ≠
      Except.ok [48, 48, 46, 48, 46, 48, 46, 48] := by
  have h1 : pack_ip [48, 48, 46, 48, 46, 48, 46, 48] = Except.ok [0, 0, 0, 0] :=
    pack_ip_quad [48, 48] [48] [48] [48] (by decide)
  have h2 : (pack_ip [48, 48, 46, 48, 46, 48, 46, 48] >>= unpack_ip) =
      Except.ok [48, 46, 48, 46, 48, 46, 48] := by
    rw [h1, bind_ok_left, unpack_ip_quad, natToDec_zero]
    rfl
  refine ⟨⟨[48, 48], [48], [48], [48], by decide, by decide⟩, h2, ?_⟩
  rw [h2]
  intro hcontra
  have := (Except.ok.inj hcontra)
  have hlen := congrArg List.length this
  simp at hlen

/-- Claim C5 witness: the round trips evaluated on "1.2.3.4" and
"AB:cd:01:23:45:67". -/
theorem claim_C5_witness :
    (pack_ip [49, 46, 50, 46, 51, 46, 52] >>= unpack_ip) =
      Except.ok [49, 46, 50, 46, 51, 46, 52] ∧
    (pack_mac [65, 66, 58, 99, 100, 58, 48, 49, 58, 50, 51, 58, 52, 53, 58, 54, 55]
        >>= unpack_mac) =
      Except.ok (pyLower
        [65, 66, 58, 99, 100, 58, 48, 49, 58, 50, 51, 58, 52, 53, 58, 54, 55]) :=
  claim_C5_pack_roundtrip
    [49, 46, 50, 46, 51, 46, 52]
    [65, 66, 58, 99, 100, 58, 48, 49, 58, 50, 51, 58, 52, 53, 58, 54, 55]
    ⟨[49], [50], [51], [52], by decide, by decide⟩
    ⟨65, 66, 99, 100, 48, 49, 50, 51, 52, 53, 54, 55, by decide, by decide⟩

theorem Omapi.fill_inbuffer_connected (st st' : OmapiState)
    (h : Omapi.fill_inbuffer st = .ok st') : st'.connected = st.connected := by
  rw [Omapi.fill_inbuffer, Omapi.recv_conn, Omapi.check_connected] at h
  split_ifs at h with hc
  · rw [bind_ok_left, bind_ok_left] at h
    dsimp only at h
    split_ifs at h
    cases hfeed : InBuffer.feed st.inbuffer (st.incoming.take 2048) with
    | ok ib =>
      rw [hfeed] at h
      injection h with h
      subst h
      rfl
    | error eib =>
      rw [hfeed] at h
      cases h
  · rw [bind_error_left] at h
    cases h

theorem Omapi.receive_message_go_connected :
    ∀ (fuel : Nat) (st st1 : OmapiState) (resp : OmapiMessage),
      Omapi.receive_message_go fuel st = .ok (resp, st1) →
      st1.connected = st.connected := by
  intro fuel
  induction fuel with
  | zero => intro st st1 resp h; cases h
  | succ f ih =>
    intro st st1 resp h
    rw [Omapi.receive_message_go] at h
    cases hp : st.inbuffer.parse_message with
    | none =>
      rw [hp] at h
      cases hf : Omapi.fill_inbuffer st with
      | ok st' =>
        rw [hf, bind_ok_left] at h
        rw [ih st' st1 resp h, Omapi.fill_inbuffer_connected st st' hf]
      | error e =>
        rw [hf, bind_error_left] at h
        cases h
    | some p =>
      rw [hp] at h
      dsimp only at h
      cases hv : OmapiMessage.verify p.1
          { st with inbuffer := p.2.resetsize }.auths with
      | ok b =>
        rw [hv] at h
        cases b with
        | true =>
          injection h with h
          have h2 := congrArg OmapiState.connected (congrArg Prod.snd h)
          exact h2.symm
        | false => cases h
      | error e =>
        rw [hv] at h
        cases h

/-- Claim C4 (amended): when `receive_response` obtains a verified message
whose `rid` differs from the pending request's `tid`, it fails with
`OmapiError("received message is not the desired response")`, but the
connection is NOT closed: the failure leaves `connected` exactly as
`receive_message` left it, so subsequent send/receive operations do not
raise "not connected". -/
theorem claim_C4_unexpected_response (st st1 : OmapiState)
    (req resp : OmapiMessage)
    (hrecv : Omapi.receive_message st = .ok (resp, st1))
    (hnr : resp.is_response req = false) :
    Omapi.receive_response st req false = .error (.notDesiredResponse, st1) ∧
    st1.connected = st.connected := by
  constructor
  · rw [Omapi.receive_response, hrecv, bind_ok_left]
    dsimp only
    rw [hnr]
    rfl
  · exact Omapi.receive_message_go_connected _ st st1 resp hrecv

/-- Claim C4 counterexample: a verified message with rid 5 arriving for a
request with tid 7 makes receive_response raise the "not the desired
response" OmapiError, yet the connection stays open (`connected` is still
true and `check_connected` succeeds), refuting the claimed fatality. -/
theorem claim_C4_counterexample :
    errPayload (Omapi.receive_response c4state c4req false) =
      some .notDesiredResponse ∧
    errStillConnected (Omapi.receive_response c4state c4req false) =
      some true ∧
    Omapi.check_connected c4state1 = .ok () ∧
    Omapi.send_conn c4state1 [1] = .ok { c4state1 with sent := [1] } :=
  ⟨rfl, rfl, rfl, rfl⟩

/-- Claim C4 witness: the amended claim applied to the concrete mismatching
exchange. -/
theorem claim_C4_witness :
    Omapi.receive_response c4state c4req false =
      .error (.notDesiredResponse, c4state1) ∧
    c4state1.connected = c4state.connected :=
  claim_C4_unexpected_response c4state c4state1 c4req c4resp rfl rfl

theorem InBuffer.parse_fixedbuffer_shrinks (s s' : InBuffer) (n : Nat)
    (r : List Nat) (h : s.parse_fixedbuffer n = some (r, s')) :
    s'.totalsize = s.totalsize ∧ s'.buff.length ≤ s.buff.length := by
  rw [InBuffer.parse_fixedbuffer] at h
  split_ifs at h
  injection h with h
  have h2 := congrArg Prod.snd h
  dsimp only at h2
  subst h2
  exact ⟨rfl, by simp [List.length_drop]⟩

theorem InBuffer.parse_net16int_shrinks (s s' : InBuffer) (r : Nat)
    (h : s.parse_net16int = some (r, s')) :
    s'.totalsize = s.totalsize ∧ s'.buff.length ≤ s.buff.length := by
  rw [InBuffer.parse_net16int] at h
  cases hf : s.parse_fixedbuffer 2 with
  | none => rw [hf] at h; cases h
  | some p =>
    rw [hf] at h
    injection h with h
    have h2 := congrArg Prod.snd h
    dsimp only at h2
    subst h2
    exact InBuffer.parse_fixedbuffer_shrinks s p.2 2 p.1 (by rw [hf])

theorem InBuffer.parse_net32int_shrinks (s s' : InBuffer) (r : Nat)
    (h : s.parse_net32int = some (r, s')) :
    s'.totalsize = s.totalsize ∧ s'.buff.length ≤ s.buff.length := by
  rw [InBuffer.parse_net32int] at h
  cases hf : s.parse_fixedbuffer 4 with
  | none => rw [hf] at h; cases h
  | some p =>
    rw [hf] at h
    injection h with h
    have h2 := congrArg Prod.snd h
    dsimp only at h2
    subst h2
    exact InBuffer.parse_fixedbuffer_shrinks s p.2 4 p.1 (by rw [hf])

theorem InBuffer.parse_net16string_shrinks (s s' : InBuffer) (r : List Nat)
    (h : s.parse_net16string = some (r, s')) :
    s'.totalsize = s.totalsize ∧ s'.buff.length ≤ s.buff.length := by
  rw [InBuffer.parse_net16string] at h
  cases hf : s.parse_net16int with
  | none => rw [hf] at h; cases h
  | some p =>
    rw [hf] at h
    simp only [Option.bind_eq_bind, Option.some_bind] at h
    obtain ⟨h1, h2⟩ := InBuffer.parse_net16int_shrinks s p.2 p.1 (by rw [hf])
    obtain ⟨h3, h4⟩ := InBuffer.parse_fixedbuffer_shrinks p.2 s' p.1 r h
    exact ⟨h3.trans h1, h4.trans h2⟩

theorem InBuffer.parse_net32string_shrinks (s s' : InBuffer) (r : List Nat)
    (h : s.parse_net32string = some (r, s')) :
    s'.totalsize = s.totalsize ∧ s'.buff.length ≤ s.buff.length := by
  rw [InBuffer.parse_net32string] at h
  cases hf : s.parse_net32int with
  | none => rw [hf] at h; cases h
  | some p =>
    rw [hf] at h
    simp only [Option.bind_eq_bind, Option.some_bind] at h
    obtain ⟨h1, h2⟩ := InBuffer.parse_net32int_shrinks s p.2 p.1 (by rw [hf])
    obtain ⟨h3, h4⟩ := InBuffer.parse_fixedbuffer_shrinks p.2 s' p.1 r h
    exact ⟨h3.trans h1, h4.trans h2⟩

theorem InBuffer.parse_bindict_go_shrinks :
    ∀ (fuel : Nat) (s s' : InBuffer) (acc r : List (List Nat × List Nat)),
      InBuffer.parse_bindict_go fuel s acc = some (r, s') →
      s'.totalsize = s.totalsize ∧ s'.buff.length ≤ s.buff.length := by
  intro fuel
  induction fuel with
  | zero => intro s s' acc r h; cases h
  | succ f ih =>
    intro s s' acc r h
    rw [InBuffer.parse_bindict_go] at h
    cases hk : s.parse_net16string with
    | none => rw [hk] at h; cases h
    | some pk =>
      rw [hk] at h
      dsimp only at h
      obtain ⟨hk1, hk2⟩ :=
        InBuffer.parse_net16string_shrinks s pk.2 pk.1 (by rw [hk])
      split_ifs at h with hke
      · injection h with h
        have h2 := congrArg Prod.snd h
        dsimp only at h2
        subst h2
        exact ⟨hk1, hk2⟩
      · cases hv : pk.2.parse_net32string with
        | none => rw [hv] at h; cases h
        | some pv =>
          rw [hv] at h
          obtain ⟨hv1, hv2⟩ :=
            InBuffer.parse_net32string_shrinks pk.2 pv.2 pv.1 (by rw [hv])
          obtain ⟨h1, h2⟩ := ih pv.2 s' _ r h
          exact ⟨h1.trans (hv1.trans hk1), h2.trans (hv2.trans hk2)⟩

theorem InBuffer.parse_bindict_shrinks (s s' : InBuffer)
    (r : List (List Nat × List Nat)) (h : s.parse_bindict = some (r, s')) :
    s'.totalsize = s.totalsize ∧ s'.buff.length ≤ s.buff.length :=
  InBuffer.parse_bindict_go_shrinks _ s s' [] r h

theorem InBuffer.parse_message_shrinks (s s' : InBuffer) (r : OmapiMessage)
    (h : s.parse_message = some (r, s')) :
    s'.totalsize = s.totalsize ∧ s'.buff.length ≤ s.buff.length := by
  rw [InBuffer.parse_message] at h
  obtain ⟨p1, e1, h⟩ := Option.bind_eq_some.1 h
  obtain ⟨p2, e2, h⟩ := Option.bind_eq_some.1 h
  obtain ⟨p3, e3, h⟩ := Option.bind_eq_some.1 h
  obtain ⟨p4, e4, h⟩ := Option.bind_eq_some.1 h
  obtain ⟨p5, e5, h⟩ := Option.bind_eq_some.1 h
  obtain ⟨p6, e6, h⟩ := Option.bind_eq_some.1 h
  obtain ⟨p7, e7, h⟩ := Option.bind_eq_some.1 h
  obtain ⟨p8, e8, h⟩ := Option.bind_eq_some.1 h
  obtain ⟨p9, e9, h⟩ := Option.bind_eq_some.1 h
  injection h with h
  have h2 := congrArg Prod.snd h
  dsimp only at h2
  obtain ⟨a1, b1⟩ := InBuffer.parse_net32int_shrinks _ _ _ e1
  obtain ⟨a2, b2⟩ := InBuffer.parse_net32int_shrinks _ _ _ e2
  obtain ⟨a3, b3⟩ := InBuffer.parse_net32int_shrinks _ _ _ e3
  obtain ⟨a4, b4⟩ := InBuffer.parse_net32int_shrinks _ _ _ e4
  obtain ⟨a5, b5⟩ := InBuffer.parse_net32int_shrinks _ _ _ e5
  obtain ⟨a6, b6⟩ := InBuffer.parse_net32int_shrinks _ _ _ e6
  obtain ⟨a7, b7⟩ := InBuffer.parse_bindict_shrinks _ _ _ e7
  obtain ⟨a8, b8⟩ := InBuffer.parse_bindict_shrinks _ _ _ e8
  obtain ⟨a9, b9⟩ := InBuffer.parse_fixedbuffer_shrinks _ _ _ _ e9
  rw [← h2]
  constructor
  · omega
  · omega

theorem InBuffer.Step.preserves (s s' : InBuffer) (hstep : InBuffer.Step s s')
    (hinv : s.buff.length ≤ s.totalsize ∧ s.totalsize ≤ sizelimit) :
    s'.buff.length ≤ s'.totalsize ∧ s'.totalsize ≤ sizelimit := by
  cases hstep with
  | feed data hf =>
    rw [InBuffer.feed] at hf
    split_ifs at hf with hc
    injection hf with hf
    subst hf
    refine ⟨?_, ?_⟩
    · simp only [List.length_append]
      omega
    · exact Nat.le_of_not_lt hc
  | reset =>
    have h1 : s.resetsize = ⟨s.buff, s.buff.length⟩ := rfl
    rw [h1]
    exact ⟨Nat.le_refl _, Nat.le_trans hinv.1 hinv.2⟩
  | fixed n r h =>
    obtain ⟨h1, h2⟩ := InBuffer.parse_fixedbuffer_shrinks s s' n r h
    exact ⟨by omega, by omega⟩
  | p16i r h =>
    obtain ⟨h1, h2⟩ := InBuffer.parse_net16int_shrinks s s' r h
    exact ⟨by omega, by omega⟩
  | p32i r h =>
    obtain ⟨h1, h2⟩ := InBuffer.parse_net32int_shrinks s s' r h
    exact ⟨by omega, by omega⟩
  | p16s r h =>
    obtain ⟨h1, h2⟩ := InBuffer.parse_net16string_shrinks s s' r h
    exact ⟨by omega, by omega⟩
  | p32s r h =>
    obtain ⟨h1, h2⟩ := InBuffer.parse_net32string_shrinks s s' r h
    exact ⟨by omega, by omega⟩
  | bdict r h =>
    obtain ⟨h1, h2⟩ := InBuffer.parse_bindict_shrinks s s' r h
    exact ⟨by omega, by omega⟩
  | pmsg r h =>
    obtain ⟨h1, h2⟩ := InBuffer.parse_message_shrinks s s' r h
    exact ⟨by omega, by omega⟩

/-- Claim C10: from the initial state, across every sequence of completed
feed, parse and resetsize operations, `totalsize` bounds the unparsed bytes
and never exceeds 65536 (so the buffered bytes never exceed 65536 even
though `resetsize` re-baselines the meter); `feed` fails with SizeLimit
exactly when `totalsize` would exceed 65536; and even the state mutated by a
failing feed keeps `totalsize >= len(buff)`. -/
theorem claim_C10_inbuffer_invariant :
    (∀ s : InBuffer, InBuffer.ReachOk s →
      s.buff.length ≤ s.totalsize ∧ s.totalsize ≤ sizelimit) ∧
    (∀ (s : InBuffer) (data : List Nat),
      (∃ x, s.feed data = .error x) ↔ sizelimit < s.totalsize + data.length) ∧
    (∀ (s s' : InBuffer) (data : List Nat) (e : OmapiErr),
      s.buff.length ≤ s.totalsize → s.feed data = .error (e, s') →
      e = .sizeLimit ∧ s'.buff.length ≤ s'.totalsize ∧
        sizelimit < s'.totalsize) := by
  refine ⟨?_, ?_, ?_⟩
  · intro s hreach
    induction hreach with
    | refl => exact ⟨Nat.le_refl _, Nat.zero_le _⟩
    | tail hsteps hstep ih => exact InBuffer.Step.preserves _ _ hstep ih
  · intro s data
    rw [InBuffer.feed]
    constructor
    · rintro ⟨x, hx⟩
      split_ifs at hx with hc
      exact hc
    · intro hc
      rw [if_pos hc]
      exact ⟨_, rfl⟩
  · intro s s' data e hinv hf
    rw [InBuffer.feed] at hf
    split_ifs at hf with hc
    injection hf with hf
    have he := congrArg Prod.fst hf
    have hs := congrArg Prod.snd hf
    dsimp only at he hs
    subst hs
    refine ⟨he.symm, ?_, hc⟩
    simp only [List.length_append]
    omega

/-- Claim C10 witness: the invariant at the initial state, and the
size-limit analysis of a concrete failing feed. -/
theorem claim_C10_witness :
    (InBuffer.init.buff.length ≤ InBuffer.init.totalsize ∧
      InBuffer.init.totalsize ≤ sizelimit) ∧
    (OmapiErr.sizeLimit = OmapiErr.sizeLimit ∧
      (⟨[1], 65537⟩ : InBuffer).buff.length ≤
        (⟨[1], 65537⟩ : InBuffer).totalsize ∧
      sizelimit < (⟨[1], 65537⟩ : InBuffer).totalsize) :=
  ⟨claim_C10_inbuffer_invariant.1 InBuffer.init Relation.ReflTransGen.refl,
   claim_C10_inbuffer_invariant.2.2 ⟨[], 65536⟩ ⟨[1], 65537⟩ [1] .sizeLimit
     (by decide) (by decide)⟩
